import Mathlib

/-! The cookie session codec of kayo/session and its lifecycle.

A shallow embedding of `src/session/cookiestore.go` (the `CookieStore` provider, its
byte-packing helpers and the AES wrappers), of the entry points `Init`, `Start`, `Save` and
`Destroy` of `src/session.go`, and of the `Start` of the package in `src/session/session.go`.

* Go byte slices and strings are `List UInt8`; `uint16`/`uint32`/`uint64` are the Lean
  machine words of the same width, so every shift, mask and wrap-around is the native one.
* A Go function that may panic returns an `Outcome`; a `(value, error)` pair stays a pair.
* A nil-able pointer, slice, interface or function value is an `Option`.
* The standard-library primitives the codec calls (URL-safe base64, SHA-1, HMAC, AES, CFB)
  are written out in full so that every definition evaluates.
-/

namespace Kayo

/-! ## Errors and outcomes -/

/-- The error values the package can return, one constructor per message. -/
inductive Error where
  /-- Message "invalid encryption key length;" of `NewCookieStore`. -/
  | invalidEncKeyLength
  /-- Message "DataEncoder is nil or sessionDataAllocator is nil" of `NewCookieStore`. -/
  | coderOrAllocatorNil
  /-- Message "session is nil or empty" of `Put`. -/
  | sessionNil
  /-- Message "login name is too long" of `Put`. -/
  | loginNameTooLong
  /-- Message "session cookie is invalid length" of `Get`. -/
  | invalidCookieLength
  /-- Message "Session cookie was tampered." of `Get`. -/
  | tampered
  /-- Message "array length must be n" of the `BytesToUint` family. -/
  | arrayLength (n : Nat)
  /-- The `base64.CorruptInputError` of the standard library (offset not modelled). -/
  | corruptInput
  /-- The `aes.KeySizeError` of the standard library, carrying the offending key length. -/
  | keySize (n : Nat)
  /-- An error produced by the payload coder. -/
  | coder (code : Nat)
  /-- The `http.ErrNoCookie` of the standard library. -/
  | noCookie
  /-- Message "cookie is empty" of `Start` in `src/session/session.go`. -/
  | cookieEmpty
  /-- An error produced by a provider other than the cookie store. -/
  | backend (code : Nat)
  deriving DecidableEq

/-- Result of running a Go function: it returns a value or it panics at run time. -/
inductive Outcome (α : Type) where
  | ret (v : α)
  | panic
  deriving DecidableEq

instance instDecidableEqExcept {ε α : Type} [DecidableEq ε] [DecidableEq α] :
    DecidableEq (Except ε α)
  | .ok a, .ok b =>
    if h : a = b then isTrue (congrArg Except.ok h) else isFalse fun h2 => h (Except.ok.inj h2)
  | .error a, .error b =>
    if h : a = b then isTrue (congrArg Except.error h)
    else isFalse fun h2 => h (Except.error.inj h2)
  | .ok _, .error _ => isFalse fun h => Except.noConfusion h
  | .error _, .ok _ => isFalse fun h => Except.noConfusion h

/-- The bytes of an ASCII string literal. -/
def bytesOf (s : String) : List UInt8 := s.toList.map fun c => UInt8.ofNat c.toNat

/-- Go slice expression `xs[lo:hi]` on a slice whose capacity equals its length: the
elements from `lo` up to `hi`, or `none` where Go panics (`lo > hi` or `hi > len xs`). -/
def slice (xs : List UInt8) (lo hi : Nat) : Option (List UInt8) :=
  if lo ≤ hi ∧ hi ≤ xs.length then some ((xs.take hi).drop lo) else none

/-- Go `copy(dst[off:], src)` for `off ≤ len dst`: overwrites `min (len dst - off) (len src)`
bytes of `dst` starting at `off` and keeps the length of `dst`. -/
def copyAt (dst : List UInt8) (off : Nat) (src : List UInt8) : List UInt8 :=
  dst.take off ++ src.take (dst.length - off) ++ dst.drop (off + src.length)

/-! ## Byte packing (`cookiestore.go`, lines 210-271)

The conversion `byte(x)` of a word is `toUInt8`, the conversion `uint32(b)` of a byte is
`toUInt32`; shifts, masks and `|` are those of the machine word. An index `b[j]` is only
reached after the length check, so `getD` never falls back on its default. -/

def Uint16ToBytes (i : UInt16) : List UInt8 :=
  [ (i >>> 8).toUInt8,
    (i &&& 0x00FF).toUInt8 ]

def Uint32ToBytes (i : UInt32) : List UInt8 :=
  [ (i >>> 24).toUInt8,
    ((i &&& 0x00FF0000) >>> 16).toUInt8,
    ((i &&& 0x0000FF00) >>> 8).toUInt8,
    (i &&& 0x000000FF).toUInt8 ]

def Uint64ToBytes (i : UInt64) : List UInt8 :=
  [ (i >>> 56).toUInt8,
    ((i &&& 0x00FF000000000000) >>> 48).toUInt8,
    ((i &&& 0x0000FF0000000000) >>> 40).toUInt8,
    ((i &&& 0x000000FF00000000) >>> 32).toUInt8,
    ((i &&& 0x00000000FF000000) >>> 24).toUInt8,
    ((i &&& 0x0000000000FF0000) >>> 16).toUInt8,
    ((i &&& 0x000000000000FF00) >>> 8).toUInt8,
    (i &&& 0x00000000000000FF).toUInt8 ]

/-- The message of the error says 4 although the length checked is 2, as in the source. -/
def BytesToUint16 (b : List UInt8) : UInt16 × Option Error :=
  if b.length ≠ 2 then (0, some (.arrayLength 4))
  else (((b.getD 0 0).toUInt16 <<< 8) ||| (b.getD 1 0).toUInt16, none)

def BytesToUint32 (b : List UInt8) : UInt32 × Option Error :=
  if b.length ≠ 4 then (0, some (.arrayLength 4))
  else (((b.getD 0 0).toUInt32 <<< 24) ||| ((b.getD 1 0).toUInt32 <<< 16)
    ||| ((b.getD 2 0).toUInt32 <<< 8) ||| (b.getD 3 0).toUInt32, none)

def BytesToUint64 (b : List UInt8) : UInt64 × Option Error :=
  if b.length ≠ 8 then (0, some (.arrayLength 8))
  else (((b.getD 0 0).toUInt64 <<< 56) ||| ((b.getD 1 0).toUInt64 <<< 48)
    ||| ((b.getD 2 0).toUInt64 <<< 40) ||| ((b.getD 3 0).toUInt64 <<< 32)
    ||| ((b.getD 4 0).toUInt64 <<< 24) ||| ((b.getD 5 0).toUInt64 <<< 16)
    ||| ((b.getD 6 0).toUInt64 <<< 8) ||| (b.getD 7 0).toUInt64, none)

/-! ## URL-safe base64 with padding (`encoding/base64`, `URLEncoding`) -/

/-- The URL-safe alphabet of RFC 4648, section 5. -/
def encodeURL : List UInt8 :=
  bytesOf "ABCDEFGHIJKLMNOPQRSTUVWXYZabcdefghijklmnopqrstuvwxyz0123456789-_"

/-- The padding character `=`. -/
def padChar : UInt8 := 61

/-- The character of a 6-bit value. -/
def encodeChar (v : Nat) : UInt8 := encodeURL.getD v 0

/-- The decode map of the encoding: the 6-bit value of an alphabet character, `none` for every
other byte (the entries `0xFF` of the library table). -/
def decodeMap (c : UInt8) : Option Nat :=
  if encodeURL.indexOf c < 64 then some (encodeURL.indexOf c) else none

/-- `base64.URLEncoding.EncodeToString`: three bytes become four characters; a final group of
one or two bytes is padded with `=`. -/
def EncodeToString : List UInt8 → List UInt8
  | a :: b :: c :: rest =>
    let val := a.toNat * 2^16 + b.toNat * 2^8 + c.toNat
    encodeChar (val / 2^18 % 64) :: encodeChar (val / 2^12 % 64) :: encodeChar (val / 2^6 % 64)
      :: encodeChar (val % 64) :: EncodeToString rest
  | [a, b] =>
    let val := a.toNat * 2^16 + b.toNat * 2^8
    [encodeChar (val / 2^18 % 64), encodeChar (val / 2^12 % 64), encodeChar (val / 2^6 % 64),
      padChar]
  | [a] =>
    let val := a.toNat * 2^16
    [encodeChar (val / 2^18 % 64), encodeChar (val / 2^12 % 64), padChar, padChar]
  | [] => []

/-- Decoding of the quanta of a string from which carriage returns and line feeds have been
removed. Every quantum is four characters; only the last one may end in `=` or `==`, and the
bits of its last character that do not fit a whole byte are dropped (the library default is
not strict). -/
def decodeQuanta : List UInt8 → Except Error (List UInt8)
  | [] => .ok []
  | c0 :: c1 :: c2 :: c3 :: rest =>
    match decodeMap c0, decodeMap c1 with
    | some d0, some d1 =>
      if c2 = padChar then
        if c3 = padChar ∧ rest = [] then .ok [UInt8.ofNat ((d0 * 2^18 + d1 * 2^12) / 2^16)]
        else .error .corruptInput
      else
        match decodeMap c2 with
        | none => .error .corruptInput
        | some d2 =>
          if c3 = padChar then
            if rest = [] then
              .ok [UInt8.ofNat ((d0 * 2^18 + d1 * 2^12 + d2 * 2^6) / 2^16),
                UInt8.ofNat ((d0 * 2^18 + d1 * 2^12 + d2 * 2^6) / 2^8)]
            else .error .corruptInput
          else
            match decodeMap c3 with
            | none => .error .corruptInput
            | some d3 =>
              match decodeQuanta rest with
              | .error e => .error e
              | .ok bs =>
                .ok (UInt8.ofNat ((d0 * 2^18 + d1 * 2^12 + d2 * 2^6 + d3) / 2^16)
                  :: UInt8.ofNat ((d0 * 2^18 + d1 * 2^12 + d2 * 2^6 + d3) / 2^8)
                  :: UInt8.ofNat (d0 * 2^18 + d1 * 2^12 + d2 * 2^6 + d3) :: bs)
    | _, _ => .error .corruptInput
  | _ => .error .corruptInput

/-- `base64.URLEncoding.DecodeString`: carriage returns and line feeds are skipped wherever
they stand, the rest is decoded quantum by quantum. -/
def DecodeString (s : List UInt8) : Except Error (List UInt8) :=
  decodeQuanta (s.filter fun c => c ≠ 10 ∧ c ≠ 13)

/-! ## SHA-1 and HMAC (`crypto/sha1`, `crypto/hmac`) -/

/-- Big-endian four-byte rendering of the low 32 bits of a number. -/
def be32 (x : Nat) : List UInt8 :=
  [UInt8.ofNat (x / 2^24), UInt8.ofNat (x / 2^16), UInt8.ofNat (x / 2^8), UInt8.ofNat x]

/-- Rotation to the left of a 32-bit word. -/
def rotl32 (x n : Nat) : Nat := ((x <<< n) ||| (x >>> (32 - n))) % 2^32

/-- Message padding of FIPS 180: a one bit, zeros up to 56 modulo 64, the bit length. -/
def sha1Pad (msg : List UInt8) : List UInt8 :=
  msg ++ [0x80] ++ List.replicate ((119 - msg.length % 64) % 64) 0
    ++ be32 (8 * msg.length / 2^32) ++ be32 (8 * msg.length)

/-- The big-endian 32-bit words of a byte string. -/
def toWords : List UInt8 → List Nat
  | b0 :: b1 :: b2 :: b3 :: rest =>
    (b0.toNat * 2^24 + b1.toNat * 2^16 + b2.toNat * 2^8 + b3.toNat) :: toWords rest
  | _ => []

/-- Message schedule: extends the words so far by `n` further words. -/
def sha1Expand : Nat → List Nat → List Nat
  | 0, w => w
  | n + 1, w =>
    sha1Expand n (w ++ [rotl32 (w.getD (w.length - 3) 0 ^^^ w.getD (w.length - 8) 0
      ^^^ w.getD (w.length - 14) 0 ^^^ w.getD (w.length - 16) 0) 1])

/-- The five working words of SHA-1. -/
structure Sha1State where
  a : Nat
  b : Nat
  c : Nat
  d : Nat
  e : Nat

/-- Round `t` of the compression function on schedule word `wt`. -/
def sha1Round (t : Nat) (s : Sha1State) (wt : Nat) : Sha1State :=
  let f := if t < 20 then (s.b &&& s.c) ||| ((s.b ^^^ 0xFFFFFFFF) &&& s.d)
    else if t < 40 then s.b ^^^ s.c ^^^ s.d
    else if t < 60 then (s.b &&& s.c) ||| (s.b &&& s.d) ||| (s.c &&& s.d)
    else s.b ^^^ s.c ^^^ s.d
  let k := if t < 20 then 0x5A827999 else if t < 40 then 0x6ED9EBA1
    else if t < 60 then 0x8F1BBCDC else 0xCA62C1D6
  { a := (rotl32 s.a 5 + f + s.e + k + wt) % 2^32, b := s.a, c := rotl32 s.b 30, d := s.c,
    e := s.d }

/-- The rounds over the schedule words, numbered from `t`. -/
def sha1Rounds : Nat → List Nat → Sha1State → Sha1State
  | _, [], s => s
  | t, wt :: ws, s => sha1Rounds (t + 1) ws (sha1Round t s wt)

/-- Compression of one 16-word block into the chaining value. -/
def sha1Block (h : Sha1State) (block : List Nat) : Sha1State :=
  let r := sha1Rounds 0 (sha1Expand 64 block) h
  { a := (h.a + r.a) % 2^32, b := (h.b + r.b) % 2^32, c := (h.c + r.c) % 2^32,
    d := (h.d + r.d) % 2^32, e := (h.e + r.e) % 2^32 }

/-- Compression of `n` consecutive blocks. -/
def sha1Blocks : Nat → List Nat → Sha1State → Sha1State
  | 0, _, h => h
  | n + 1, ws, h => sha1Blocks n (ws.drop 16) (sha1Block h (ws.take 16))

/-- The SHA-1 digest of a message, 20 bytes. -/
def sha1Sum (msg : List UInt8) : List UInt8 :=
  let ws := toWords (sha1Pad msg)
  let h := sha1Blocks (ws.length / 16) ws
    { a := 0x67452301, b := 0xEFCDAB89, c := 0x98BADCFE, d := 0x10325476, e := 0xC3D2E1F0 }
  be32 h.a ++ be32 h.b ++ be32 h.c ++ be32 h.d ++ be32 h.e

/-- A hash algorithm as the store holds it (`func() hash.Hash`): the digest of a whole
message and the block size HMAC needs. -/
structure Hash where
  Sum : List UInt8 → List UInt8
  BlockSize : Nat

/-- The constructor `sha1.New`. -/
def sha1New : Hash := { Sum := sha1Sum, BlockSize := 64 }

/-- The constant `sha1.Size`. -/
def sha1Size : Nat := 20

/-- The digest `mac.Sum(nil)` of `hmac.New(h, key)` after `mac.Write(msg)` (RFC 2104). -/
def hmacSum (h : Hash) (key msg : List UInt8) : List UInt8 :=
  let k0 := if key.length > h.BlockSize then h.Sum key else key
  let k := k0 ++ List.replicate (h.BlockSize - k0.length) 0
  h.Sum (k.map (· ^^^ 0x5c) ++ h.Sum (k.map (· ^^^ 0x36) ++ msg))

/-! ## AES and CFB (`crypto/aes`, `crypto/cipher`) -/

/-- Multiplication by `x` in GF(2^8) modulo `x^8 + x^4 + x^3 + x + 1`. -/
def xtime (a : Nat) : Nat := if a < 128 then 2 * a else (2 * a) % 256 ^^^ 0x1b

/-- Product in GF(2^8): shift-and-add over the low `n` bits of the second factor. -/
def gfMulAux : Nat → Nat → Nat → Nat
  | 0, _, _ => 0
  | n + 1, a, b => (if b % 2 = 1 then a else 0) ^^^ gfMulAux n (xtime a) (b / 2)

/-- Product in GF(2^8). -/
def gfMul (a b : Nat) : Nat := gfMulAux 8 a b

/-- Inverse in GF(2^8) as the 254th power (0 is sent to 0). -/
def gfInv (a : Nat) : Nat :=
  let a2 := gfMul a a
  let a4 := gfMul a2 a2
  let a8 := gfMul a4 a4
  let a16 := gfMul a8 a8
  let a32 := gfMul a16 a16
  let a64 := gfMul a32 a32
  let a128 := gfMul a64 a64
  gfMul a128 (gfMul a64 (gfMul a32 (gfMul a16 (gfMul a8 (gfMul a4 a2)))))

/-- Rotation to the left of a byte. -/
def rotl8 (x n : Nat) : Nat := ((x <<< n) ||| (x >>> (8 - n))) % 256

/-- The S-box of FIPS 197: field inverse followed by the affine map. -/
def sbox (a : Nat) : Nat :=
  let s := gfInv a
  s ^^^ rotl8 s 1 ^^^ rotl8 s 2 ^^^ rotl8 s 3 ^^^ rotl8 s 4 ^^^ 0x63

/-- Round constant `x^(n-1)` of the key schedule. -/
def rcon : Nat → Nat
  | 0 => 0x8d
  | n + 1 => xtime (rcon n)

/-- Key schedule on a flat byte list: `w` holds words `0 .. i-1`, four bytes each; appends
`n` further words for a key of `nk` words. -/
def expandKeyAux (nk : Nat) : Nat → Nat → List Nat → List Nat
  | 0, _, w => w
  | n + 1, i, w =>
    let p := fun j => w.getD (4 * (i - 1) + j) 0
    let t :=
      if i % nk = 0 then [sbox (p 1) ^^^ rcon (i / nk), sbox (p 2), sbox (p 3), sbox (p 0)]
      else if nk > 6 ∧ i % nk = 4 then [sbox (p 0), sbox (p 1), sbox (p 2), sbox (p 3)]
      else [p 0, p 1, p 2, p 3]
    expandKeyAux nk n (i + 1)
      (w ++ (List.range 4).map fun j => w.getD (4 * (i - nk) + j) 0 ^^^ t.getD j 0)

/-- The expanded key: `4 * (nk + 7)` words for a key of `nk` words. -/
def expandKey (key : List Nat) : List Nat :=
  expandKeyAux (key.length / 4) (4 * (key.length / 4 + 7) - key.length / 4) (key.length / 4) key

/-- AddRoundKey with round key `r` of the schedule `w`. -/
def addRoundKey (w : List Nat) (r : Nat) (s : List Nat) : List Nat :=
  (List.range 16).map fun i => s.getD i 0 ^^^ w.getD (16 * r + i) 0

/-- SubBytes. -/
def subBytes (s : List Nat) : List Nat :=
  (List.range 16).map fun i => sbox (s.getD i 0)

/-- ShiftRows on the column-major state: row `r` moves `r` places to the left. -/
def shiftRows (s : List Nat) : List Nat :=
  (List.range 16).map fun i => s.getD (i % 4 + 4 * ((i / 4 + i % 4) % 4)) 0

/-- MixColumns: byte `i` of the state, in row `i % 4` of column `i / 4`. -/
def mixColumns (s : List Nat) : List Nat :=
  (List.range 16).map fun i =>
    let col := fun r => s.getD (4 * (i / 4) + (i + r) % 4) 0
    gfMul 2 (col 0) ^^^ gfMul 3 (col 1) ^^^ col 2 ^^^ col 3

/-- The middle rounds `r, r+1, ...`, `n` of them. -/
def aesRounds (w : List Nat) : Nat → Nat → List Nat → List Nat
  | 0, _, s => s
  | n + 1, r, s => aesRounds w n (r + 1) (addRoundKey w r (mixColumns (shiftRows (subBytes s))))

/-- The block function `Encrypt` of `aes.NewCipher(key)` for a key of 16, 24 or 32 bytes. -/
def aesEncryptBlock (key block : List UInt8) : List UInt8 :=
  let w := expandKey (key.map UInt8.toNat)
  let nr := key.length / 4 + 6
  let s := aesRounds w (nr - 1) 1 (addRoundKey w 0 (block.map UInt8.toNat))
  (addRoundKey w nr (shiftRows (subBytes s))).map UInt8.ofNat

/-- Bytewise exclusive or, as long as the shorter argument. -/
def xorBytes : List UInt8 → List UInt8 → List UInt8
  | a :: as, b :: bs => (a ^^^ b) :: xorBytes as bs
  | _, _ => []

/-- `XORKeyStream` of a CFB stream over the block function `b`, with shift register `next`.
The flag tells the decrypter from the encrypter: the register is refilled with ciphertext,
which is the input when decrypting and the output when encrypting. The first argument bounds
the number of blocks. -/
def cfbXORKeyStream (decrypt : Bool) (b : List UInt8 → List UInt8) :
    Nat → List UInt8 → List UInt8 → List UInt8
  | _, _, [] => []
  | 0, _, _ :: _ => []
  | n + 1, next, x :: xs =>
    let out := b next
    let dst := xorBytes ((x :: xs).take 16) out
    dst ++ cfbXORKeyStream decrypt b n (if decrypt then (x :: xs).take 16 else dst)
      ((x :: xs).drop 16)

/-- The fixed initialisation vector of `cookiestore.go`. -/
def commonIV : List UInt8 :=
  [0x00, 0x01, 0x02, 0x03, 0x04, 0x05, 0x06, 0x07, 0x08, 0x09, 0x0a, 0x0b, 0x0c, 0x0d, 0x0e, 0x0f]

/-- `aes.NewCipher`: the block function of the key, or `KeySizeError`. -/
def aesNewCipher (key : List UInt8) : Except Error (List UInt8 → List UInt8) :=
  if key.length = 16 ∨ key.length = 24 ∨ key.length = 32 then .ok (aesEncryptBlock key)
  else .error (.keySize key.length)

/-- `EncryptAES(dst, key16or32, data)` with `len dst = len data`: the new contents of `dst`,
or the error of `aes.NewCipher`. -/
def EncryptAES (key16or32 data : List UInt8) : Except Error (List UInt8) :=
  match aesNewCipher key16or32 with
  | .error err => .error err
  | .ok c => .ok (cfbXORKeyStream false c data.length commonIV data)

/-- `DecryptAES(dst, key16or32, data)` with `len dst = len data`: the new contents of `dst`,
or the error of `aes.NewCipher`. -/
def DecryptAES (key16or32 data : List UInt8) : Except Error (List UInt8) :=
  match aesNewCipher key16or32 with
  | .error err2 => .error err2
  | .ok c => .ok (cfbXORKeyStream true c data.length commonIV data)

/-! ## The session entity (`session.go`) -/

/-- The constants `NEW = 0`, `VALID = 1`, `EXPIRED = 2`. -/
inductive SessionState where
  | NEW
  | VALID
  | EXPIRED
  deriving DecidableEq

/-- The struct `Session`; `δ` is the dynamic type behind the `interface{}` field `Data`, whose
nil value is `none`. The default values are the zero values of `new(Session)`. -/
structure Session (δ : Type) where
  State : SessionState := .NEW
  Expiry : UInt32 := 0
  Token : List UInt8 := []
  LoginName : List UInt8 := []
  Flags : UInt64 := 0
  Data : Option δ := none
  deriving DecidableEq

/-! ## The cookie store (`cookiestore.go`) -/

/-- The interface `SessionDataCoder`. `Decode` receives the destination allocated by the
store and the bytes; it yields the contents of the destination after decoding. -/
structure SessionDataCoder (δ : Type) where
  Encode : δ → Except Error (List UInt8)
  Decode : δ → List UInt8 → Except Error δ

/-- The struct `CookieStore`. A nil `encKey`, `dataEnc` or `dataAllocator` is `none`. -/
structure CookieStore (δ : Type) where
  hashAlgo : Hash
  hashSize : Nat
  hashKey : List UInt8
  encKey : Option (List UInt8)
  dataEnc : Option (SessionDataCoder δ)
  dataAllocator : Option (Unit → δ)

/-- Go `len` of a nil-able slice. -/
def lenOf (b : Option (List UInt8)) : Nat :=
  match b with
  | none => 0
  | some k => k.length

/-- Instantiate a cookie store (`cookiestore.go`, lines 66-84): the store, or the error. -/
def NewCookieStore {δ : Type} (hashKey : List UInt8) (encKey16or32 : Option (List UInt8))
    (enc : Option (SessionDataCoder δ)) (sessionDataAllocator : Option (Unit → δ)) :
    Option (CookieStore δ) × Option Error :=
  let ln := lenOf encKey16or32
  if ln ≠ 0 ∧ ln ≠ 16 ∧ ln ≠ 32 then
    (none, some .invalidEncKeyLength)
  else if (enc.isNone ∧ sessionDataAllocator.isSome) ∨ (enc.isSome ∧ sessionDataAllocator.isNone)
  then
    (none, some .coderOrAllocatorNil)
  else
    (some { hashKey := hashKey, encKey := encKey16or32, dataEnc := enc,
            dataAllocator := sessionDataAllocator, hashAlgo := sha1New, hashSize := sha1Size },
      none)

/-- Lines 96-106 of `Put`: the serialised `Session.Data`, empty when `Data` is nil. Calling
`Encode` through a nil `dataEnc` panics. -/
def CookieStore.serData {δ : Type} (cs : CookieStore δ) (s : Session δ) :
    Outcome (Except Error (List UInt8)) :=
  match s.Data with
  | none => .ret (.ok [])
  | some d =>
    match cs.dataEnc with
    | none => .panic
    | some enc => .ret (enc.Encode d)

/-- Lines 107-131 of `Put`: the buffer after the record and its digest have been copied in. -/
def CookieStore.fillBuff {δ : Type} (cs : CookieStore δ) (s : Session δ) (serData : List UInt8) :
    List UInt8 :=
  let loginLen := s.LoginName.length
  let serDataLen := serData.length
  let buffLen := 13 + loginLen + serDataLen + cs.hashSize
  let buff := List.replicate buffLen (0 : UInt8)
  let buff := copyAt buff 0 (Uint32ToBytes s.Expiry)
  let buff := copyAt buff 4 (Uint64ToBytes s.Flags)
  let buff := buff.set 12 (UInt8.ofNat loginLen)
  let buff := copyAt buff 13 s.LoginName
  let buff := copyAt buff (13 + loginLen) serData
  let actualDataLen := 13 + loginLen + serDataLen
  let mac := hmacSum cs.hashAlgo cs.hashKey (buff.take actualDataLen)
  copyAt buff actualDataLen mac

/-- Saves a session by returning a value for cookie savings. The session is only read. -/
def CookieStore.Put {δ : Type} (cs : CookieStore δ) (s : Option (Session δ)) :
    Outcome (List UInt8 × Option Error) :=
  match s with
  | none => .ret ([], some .sessionNil)
  | some s =>
    if s.LoginName.length > 255 then
      .ret ([], some .loginNameTooLong)
    else
      match cs.serData s with
      | .panic => .panic
      | .ret (.error err) => .ret ([], some err)
      | .ret (.ok serData) =>
        let buff := cs.fillBuff s serData
        match cs.encKey with
        | some encKey =>
          match EncryptAES encKey buff with
          | .error err => .ret ([], some err)
          | .ok buff => .ret (EncodeToString buff, none)
        | none => .ret (EncodeToString buff, none)

/-- Lines 186-201 of `Get`: the fields of a record whose digest matched. `loginLen` is a
byte, so `13+loginLen` is computed in `uint8`. The indices 0 to 12 are within the record,
which has at least `13 + hashSize` bytes when `Get` arrives here. Where the capacity of
`rawData` exceeds its length, a bound `13+loginLen` between the two passes the first slice
expression in Go and fails the second one, whose low bound then exceeds its high bound: the
outcome is the same panic. -/
def CookieStore.extract {δ : Type} (cs : CookieStore δ) (rawData : List UInt8) :
    Outcome (Option (Session δ) × Option Error) :=
  let dataLen := rawData.length
  let s : Session δ := {}
  let s := { s with Expiry := (BytesToUint32 ((rawData.take 4).drop 0)).1 }
  let s := { s with Flags := (BytesToUint64 ((rawData.take 12).drop 4)).1 }
  let loginLen : UInt8 := rawData.getD 12 0
  match slice rawData 13 (13 + loginLen).toNat with
  | none => .panic
  | some loginName =>
    let s := { s with LoginName := loginName }
    match slice rawData (13 + loginLen).toNat (dataLen - cs.hashSize) with
    | none => .panic
    | some data =>
      if data.length > 0 then
        match cs.dataAllocator with
        | none => .panic
        | some dataAllocator =>
          match cs.dataEnc with
          | none => .panic
          | some dataEnc =>
            match dataEnc.Decode (dataAllocator ()) data with
            | .error err => .ret (none, some err)
            | .ok d => .ret (some { s with Data := some d }, none)
      else .ret (some s, none)

/-- Retrieve a session from a cookie value (`cookiestore.go`, lines 149-203). -/
def CookieStore.Get {δ : Type} (cs : CookieStore δ) (cookieVal : List UInt8) :
    Outcome (Option (Session δ) × Option Error) :=
  match DecodeString cookieVal with
  | .error err => .ret (none, some err)
  | .ok byts =>
    let dataLen := byts.length
    if dataLen < 13 + cs.hashSize then
      .ret (none, some .invalidCookieLength)
    else
      match (match cs.encKey with
             | some encKey => DecryptAES encKey byts
             | none => .ok byts) with
      | .error err2 => .ret (none, some err2)
      | .ok rawData =>
        let hSum := hmacSum cs.hashAlgo cs.hashKey (rawData.take (dataLen - cs.hashSize))
        let s : Session δ := {}
        if hSum ≠ rawData.drop (dataLen - cs.hashSize) then
          .ret (some { s with State := .EXPIRED }, some .tampered)
        else cs.extract rawData

/-- Just returns nil: the session data was saved as cookie (`cookiestore.go`, lines 205-208). -/
def CookieStore.Delete {δ : Type} (_cs : CookieStore δ) (_sessID : List UInt8) : Option Error :=
  none

/-! ## The lifecycle (`src/session.go`) -/

/-- The interface `Provider`. `Put` receives a pointer, so it also yields the session as the
call leaves it. -/
structure Provider (δ : Type) where
  Put : Session δ → Outcome (Session δ × (List UInt8 × Option Error))
  Get : List UInt8 → Outcome (Option (Session δ) × Option Error)
  Delete : List UInt8 → Outcome (Option Error)

/-- The cookie store as a `Provider`. -/
def CookieStore.toProvider {δ : Type} (cs : CookieStore δ) : Provider δ where
  Put := fun s =>
    match cs.Put (some s) with
    | .panic => .panic
    | .ret r => .ret (s, r)
  Get := cs.Get
  Delete := fun t => .ret (cs.Delete t)

/-- The struct `CookieOptions`, the type of the package variable `cookie`. `MaxAge` is a
`time.Duration`, in nanoseconds. -/
structure CookieOptions (δ : Type) where
  Store : Provider δ
  Name : String
  Path : String
  Domain : String
  Secure : Bool
  MaxAge : Int

/-- The value of a Go `int64` expression whose exact result is `x`: two's complement
wrap-around into the range from `-2^63` to `2^63 - 1`. -/
def wrapInt64 (x : Int) : Int := (x + 2^63) % 2^64 - 2^63

/-- The value of the package variable `cookie` after `Init`. `maxAge` is the value of the Go
`int` argument, in seconds; the product `int64(time.Second) * int64(maxAge)` wraps around in
`int64`. -/
def Init {δ : Type} (provider : Provider δ) (cookieName domain path : String) (maxAge : Int)
    (secure : Bool) : CookieOptions δ :=
  { Store := provider, Name := cookieName, Path := path, Domain := domain,
    MaxAge := wrapInt64 (1000000000 * maxAge), Secure := secure }

/-- The struct `http.Cookie`, reduced to the fields the package reads or writes; the default
values are the zero values of `new(http.Cookie)`. -/
structure Cookie where
  Name : String
  Value : List UInt8
  Path : String := ""
  Domain : String := ""
  MaxAge : Int := 0
  Secure : Bool := false
  HttpOnly : Bool := false
  deriving DecidableEq

/-- An incoming request, reduced to the cookies of its `Cookie` header. -/
structure Request where
  Cookies : List Cookie

/-- The method `r.Cookie(name)`: the first cookie of that name, or `ErrNoCookie` (`none`). -/
def Request.Cookie (r : Request) (name : String) : Option Cookie :=
  r.Cookies.find? fun c => c.Name = name

/-- The conversion `uint32(time.Now().Unix())` of a Unix time in seconds. -/
def unixUint32 (now : Int) : UInt32 := UInt32.ofNat (now % 2^32).toNat

/-- Start a session (`src/session.go`). `cookie` is the package variable, `now` the value of
`time.Now().Unix()`. -/
def Start {δ : Type} (cookie : CookieOptions δ) (now : Int) (r : Request) :
    Outcome (Option (Session δ) × Option Error) :=
  let cookieVal : List UInt8 :=
    match r.Cookie cookie.Name with
    | some c => c.Value
    | none => []
  match cookie.Store.Get cookieVal with
  | .panic => .panic
  | .ret (_, some er) => .ret (none, some er)
  | .ret (none, none) => .panic
  | .ret (some s, none) =>
    if s.State = .VALID ∧ s.Expiry < unixUint32 now then
      .ret (some { s with State := .EXPIRED }, none)
    else .ret (some s, none)

/-- A call into the provider: the method and its argument, for `Put` the session the
pointer leads to when the call is made. -/
inductive ProviderCall (δ : Type) where
  | Put (s : Session δ)
  | Delete (token : List UInt8)
  deriving DecidableEq

/-- What a call of `Save` or `Destroy` leaves behind: the session the pointer `s` leads to,
the cookies handed to `http.SetCookie(w, c)` in order, the calls made into the provider in
order, and the error returned. -/
structure Written (δ : Type) where
  session : Session δ
  cookies : List Cookie
  calls : List (ProviderCall δ)
  err : Option Error
  deriving DecidableEq

/-- The cookie `Save` (lines 124-137) and `Destroy` (lines 144-157) fill in before
`http.SetCookie`: value and max-age from the caller, the rest from the package variable. -/
def newCookie {δ : Type} (cookie : CookieOptions δ) (value : List UInt8) (maxAge : Int) : Cookie :=
  { Value := value, Name := cookie.Name, Domain := cookie.Domain, Path := cookie.Path,
    Secure := cookie.Secure, HttpOnly := true, MaxAge := maxAge }

/-- The method `Unix()` of a time given in nanoseconds since the epoch. -/
def unixOf (nano : Int) : Int := nano / 1000000000

/-- Lines 124-140 of `Save`: the last `Put` and the cookie. `calls` are the provider calls
made before. -/
def Save.finish {δ : Type} (cookie : CookieOptions δ) (maxAge : Int) (s : Session δ)
    (calls : List (ProviderCall δ)) : Outcome (Written δ) :=
  match cookie.Store.Put s with
  | .panic => .panic
  | .ret (s2, (_, some err)) =>
    .ret { session := s2, cookies := [], calls := calls ++ [.Put s], err := some err }
  | .ret (s2, (tv, none)) =>
    .ret { session := s2, cookies := [newCookie cookie tv maxAge], calls := calls ++ [.Put s],
           err := none }

/-- Save a session (`src/session.go`, lines 108-141), for a non-nil `s`. `cookie` is the
package variable and `nowNano` the reading of `time.Now()` the branch taken uses, in
nanoseconds since the epoch: `time.Time` keeps seconds and nanoseconds apart, so `Add` and
`Unix` are exact for the durations an `int64` holds. The result of the
`Put` inside the branch for NEW and of `Delete` is dropped, as in the source. -/
def Save {δ : Type} (cookie : CookieOptions δ) (nowNano : Int) (s : Session δ) :
    Outcome (Written δ) :=
  if s.State = .NEW then
    let s := { s with State := .VALID }
    let s := { s with Expiry := unixUint32 (unixOf (nowNano + cookie.MaxAge)) }
    match cookie.Store.Put s with
    | .panic => .panic
    | .ret (s2, _) => Save.finish cookie 0 s2 [.Put s]
  else if s.State = .EXPIRED then
    let s := { s with Expiry := unixUint32 (unixOf nowNano) }
    match cookie.Store.Delete s.Token with
    | .panic => .panic
    | .ret _ => Save.finish cookie (-1) s [.Delete s.Token]
  else Save.finish cookie 0 s []

/-- Destroy a session (`src/session.go`, lines 143-161), for a non-nil `s`. -/
def Destroy {δ : Type} (cookie : CookieOptions δ) (s : Session δ) : Outcome (Written δ) :=
  match cookie.Store.Delete s.Token with
  | .panic => .panic
  | .ret (some err) =>
    .ret { session := s, cookies := [], calls := [.Delete s.Token], err := some err }
  | .ret none =>
    .ret { session := s, cookies := [newCookie cookie [] (-1)], calls := [.Delete s.Token],
           err := none }

/-! ## The lifecycle of the inner package (`src/session/session.go`)

The directory `src/session` holds a second package `session`, the one `TestCookieSession`
imports and the one `cookiestore.go` belongs to: in Go the cookie store implements the
`Provider` of this package. Its types are declared word for word as above, and the embedding
declares them once; its `Start` differs. -/

/-- Start a session (`src/session/session.go`, lines 80-102): returns error when the cookie is
absent or empty. `now` is the value of `time.Now().Unix()`. -/
def Inner.Start {δ : Type} (cookie : CookieOptions δ) (now : Int) (r : Request) :
    Outcome (Option (Session δ) × Option Error) :=
  match r.Cookie cookie.Name with
  | none => .ret (some {}, some .noCookie)
  | some c =>
    if c.Value = [] then .ret (some {}, some .cookieEmpty)
    else
      match cookie.Store.Get c.Value with
      | .panic => .panic
      | .ret (_, some er) => .ret (some {}, some er)
      | .ret (none, none) => .panic
      | .ret (some s, none) =>
        if s.Expiry < unixUint32 now then
          match cookie.Store.Delete s.Token with
          | .panic => .panic
          | .ret _ => .ret (some { s with State := .EXPIRED }, none)
        else .ret (some { s with State := .VALID }, none)

/-! ## Definitions in the words of the specification -/

/-- Big-endian rendering of `x` in `width` bytes: byte `j` is the base-256 digit of weight
`256 ^ (width - 1 - j)`. -/
def bigEndian (width x : Nat) : List UInt8 :=
  (List.range width).map fun j => UInt8.ofNat (x / 256 ^ (width - 1 - j) % 256)

/-- The record of section 6 of the specification, before the digest:
`expiry(4) ‖ flags(8) ‖ loginNameLen(1) ‖ loginName ‖ serializedData`. -/
def specRecord (expiry : UInt32) (flags : UInt64) (loginName serializedData : List UInt8) :
    List UInt8 :=
  bigEndian 4 expiry.toNat ++ bigEndian 8 flags.toNat ++ [UInt8.ofNat loginName.length]
    ++ loginName ++ serializedData

/-- A payload coder over raw byte strings: `Encode` is the identity and `Decode` overwrites
the destination with the bytes, so `Decode` inverts `Encode`. -/
def rawCoder : SessionDataCoder (List UInt8) where
  Encode := fun d => .ok d
  Decode := fun _ b => .ok b

/-- The store `NewCookieStore([]byte("1234"), nil, nil, nil)`. -/
def plainStore : CookieStore Unit :=
  { hashAlgo := sha1New, hashSize := sha1Size, hashKey := bytesOf "1234", encKey := none,
    dataEnc := none, dataAllocator := none }

/-- The store `NewCookieStore([]byte("1234"), nil, rawCoder, allocator)` whose allocator
returns an empty byte string. -/
def rawStore : CookieStore (List UInt8) :=
  { hashAlgo := sha1New, hashSize := sha1Size, hashKey := bytesOf "1234", encKey := none,
    dataEnc := some rawCoder, dataAllocator := some fun _ => [] }

/-- The session `TestCookieSession` saves, with a byte string as payload. -/
def testSession : Session (List UInt8) :=
  { LoginName := bytesOf "johndoe", Flags := 0xFFFF, Expiry := 1000,
    Data := some (bytesOf "John Doe") }

/-- The store of `TestCookieSession`, with the raw coder in the place of the JSON coder:
digest key "1234", cipher key "1234567890abcdef". -/
def testStore : CookieStore (List UInt8) :=
  { hashAlgo := sha1New, hashSize := sha1Size, hashKey := bytesOf "1234",
    encKey := some (bytesOf "1234567890abcdef"), dataEnc := some rawCoder,
    dataAllocator := some fun _ => [] }

/-- The store `NewCookieStore([]byte("1234"), []byte{}, nil, nil)`, whose cipher key is
empty and not nil. -/
def emptyKeyStore : CookieStore Unit :=
  { hashAlgo := sha1New, hashSize := sha1Size, hashKey := bytesOf "1234", encKey := some [],
    dataEnc := none, dataAllocator := none }

/-- The session of `TestCookieSession` without payload, as `Save` leaves it at second 1000
under a max-age of 2 seconds. -/
def savedSession : Session Unit :=
  { State := .VALID, Expiry := 1002, LoginName := bytesOf "johndoe", Flags := 0xFFFF }

/-- The token of `savedSession` under the digest key "1234" without cipher key. -/
def savedToken : List UInt8 :=
  bytesOf "AAAD6gAAAAAAAP__B2pvaG5kb2WOF293glYPUfeo5K1refdv2k-GUg=="

/-- The package variable after `Init(plainStore, "mysession", "localhost", "/", 2, false)`,
as in `TestCookieSession`. -/
def testCookie : CookieOptions Unit :=
  Init plainStore.toProvider "mysession" "localhost" "/" 2 false

/-- A request that carries the token of `savedSession` in the cookie "mysession". -/
def savedRequest : Request :=
  { Cookies := [{ Name := "mysession", Value := savedToken }] }

/-- The cookie `Save` writes for `savedSession` under `testCookie`. -/
def savedCookie : Cookie :=
  ⟨"mysession", savedToken, "/", "localhost", 0, false, true⟩

/-- The cookie `Destroy` writes under `testCookie`. -/
def clearedCookie : Cookie :=
  ⟨"mysession", [], "/", "localhost", -1, false, true⟩

/-- A request that carries, in the cookie "mysession", the token of a session whose login
name has 250 bytes. -/
def longLoginRequest : Request :=
  { Cookies := [{ Name := "mysession",
                  Value := EncodeToString
                    (plainStore.fillBuff ⟨.NEW, 0, [], List.replicate 250 97, 0, none⟩ []) }] }

/-! # Theorems -/

/-! ## Machine-word arithmetic -/

theorem and_mask_byte (i k : Nat) : i &&& (255 * 2^k) = (i / 2^k % 256) * 2^k := by
  apply Nat.eq_of_testBit_eq
  intro j
  have h255 : (255 : Nat) = 2^8 - 1 := by norm_num
  have h256 : (256 : Nat) = 2^8 := by norm_num
  rw [h255, h256, Nat.mul_comm (2^8 - 1), Nat.mul_comm _ (2^k), ← Nat.shiftRight_eq_div_pow]
  simp only [Nat.testBit_and, Nat.testBit_mul_pow_two, Nat.testBit_two_pow_sub_one,
    Nat.testBit_mod_two_pow, Nat.testBit_shiftRight]
  by_cases hj : k ≤ j
  · have : k + (j - k) = j := by omega
    simp [hj, this, Bool.and_comm]
  · simp [hj]

theorem mask_shift_byte (i m k : Nat) (hm : m = 255 * 2^k) :
    ((i &&& m) >>> k) % 256 = i / 2^k % 256 := by
  subst hm
  rw [and_mask_byte, Nat.shiftRight_eq_div_pow, Nat.mul_div_cancel _ (Nat.two_pow_pos k)]
  exact Nat.mod_mod _ _

theorem mask_low_byte (i : Nat) : (i &&& 255) % 256 = i % 256 := by
  have := mask_shift_byte i 255 0 (by norm_num)
  simpa using this

theorem or_eq_add_of_dvd (a b i : Nat) (hb : b < 2^i) (ha : 2^i ∣ a) : a ||| b = a + b := by
  obtain ⟨c, rfl⟩ := ha
  exact (Nat.mul_add_lt_is_or hb c).symm

theorem ofNat_eq_of_mod_eq {n m : Nat} (h : n % 256 = m % 256) : UInt8.ofNat n = UInt8.ofNat m :=
  UInt8.ext h

theorem u16_toNat_shiftRight (a k : UInt16) (hk : k.toNat < 16) :
    (a >>> k).toNat = a.toNat >>> k.toNat := by
  show (a.toBitVec >>> (k.mod 16).toBitVec).toNat = _
  rw [BitVec.ushiftRight_eq', BitVec.toNat_ushiftRight]
  congr 1
  show k.toNat % 16 = k.toNat
  exact Nat.mod_eq_of_lt hk

theorem u16_toNat_shiftLeft (a k : UInt16) (hk : k.toNat < 16) :
    (a <<< k).toNat = (a.toNat <<< k.toNat) % 2^16 := by
  show (a.toBitVec <<< (k.mod 16).toBitVec).toNat = _
  rw [BitVec.shiftLeft_eq', BitVec.toNat_shiftLeft]
  congr 2
  show k.toNat % 16 = k.toNat
  exact Nat.mod_eq_of_lt hk

theorem u16_toNat_and (a b : UInt16) : (a &&& b).toNat = a.toNat &&& b.toNat := by
  show (a.toBitVec &&& b.toBitVec).toNat = _
  rw [BitVec.toNat_and]; rfl

theorem u16_toNat_or (a b : UInt16) : (a ||| b).toNat = a.toNat ||| b.toNat := by
  show (a.toBitVec ||| b.toBitVec).toNat = _
  rw [BitVec.toNat_or]; rfl

theorem u32_toNat_shiftRight (a k : UInt32) (hk : k.toNat < 32) :
    (a >>> k).toNat = a.toNat >>> k.toNat := by
  show (a.toBitVec >>> (k.mod 32).toBitVec).toNat = _
  rw [BitVec.ushiftRight_eq', BitVec.toNat_ushiftRight]
  congr 1
  show k.toNat % 32 = k.toNat
  exact Nat.mod_eq_of_lt hk

theorem u32_toNat_shiftLeft (a k : UInt32) (hk : k.toNat < 32) :
    (a <<< k).toNat = (a.toNat <<< k.toNat) % 2^32 := by
  show (a.toBitVec <<< (k.mod 32).toBitVec).toNat = _
  rw [BitVec.shiftLeft_eq', BitVec.toNat_shiftLeft]
  congr 2
  show k.toNat % 32 = k.toNat
  exact Nat.mod_eq_of_lt hk

theorem u32_toNat_and (a b : UInt32) : (a &&& b).toNat = a.toNat &&& b.toNat := by
  show (a.toBitVec &&& b.toBitVec).toNat = _
  rw [BitVec.toNat_and]; rfl

theorem u32_toNat_or (a b : UInt32) : (a ||| b).toNat = a.toNat ||| b.toNat := by
  show (a.toBitVec ||| b.toBitVec).toNat = _
  rw [BitVec.toNat_or]; rfl

theorem u64_toNat_shiftRight (a k : UInt64) (hk : k.toNat < 64) :
    (a >>> k).toNat = a.toNat >>> k.toNat := by
  show (a.toBitVec >>> (k.mod 64).toBitVec).toNat = _
  rw [BitVec.ushiftRight_eq', BitVec.toNat_ushiftRight]
  congr 1
  show k.toNat % 64 = k.toNat
  exact Nat.mod_eq_of_lt hk

theorem u64_toNat_shiftLeft (a k : UInt64) (hk : k.toNat < 64) :
    (a <<< k).toNat = (a.toNat <<< k.toNat) % 2^64 := by
  show (a.toBitVec <<< (k.mod 64).toBitVec).toNat = _
  rw [BitVec.shiftLeft_eq', BitVec.toNat_shiftLeft]
  congr 2
  show k.toNat % 64 = k.toNat
  exact Nat.mod_eq_of_lt hk

theorem u64_toNat_and (a b : UInt64) : (a &&& b).toNat = a.toNat &&& b.toNat := by
  show (a.toBitVec &&& b.toBitVec).toNat = _
  rw [BitVec.toNat_and]; rfl

theorem u64_toNat_or (a b : UInt64) : (a ||| b).toNat = a.toNat ||| b.toNat := by
  show (a.toBitVec ||| b.toBitVec).toNat = _
  rw [BitVec.toNat_or]; rfl

/-- The bytes written by `Uint16ToBytes` are the base-256 digits, most significant first. -/
theorem Uint16ToBytes_eq (i : UInt16) :
    Uint16ToBytes i = [UInt8.ofNat (i.toNat / 2^8), UInt8.ofNat i.toNat] := by
  unfold Uint16ToBytes
  have h0 : (i >>> 8).toUInt8 = UInt8.ofNat (i.toNat / 2^8) := by
    apply ofNat_eq_of_mod_eq
    rw [u16_toNat_shiftRight _ _ (by decide), Nat.shiftRight_eq_div_pow]; rfl
  have h1 : (i &&& 0x00FF).toUInt8 = UInt8.ofNat i.toNat := by
    apply ofNat_eq_of_mod_eq
    rw [u16_toNat_and]; exact mask_low_byte _
  rw [h0, h1]

theorem Uint32ToBytes_eq (i : UInt32) :
    Uint32ToBytes i = [UInt8.ofNat (i.toNat / 2^24), UInt8.ofNat (i.toNat / 2^16),
      UInt8.ofNat (i.toNat / 2^8), UInt8.ofNat i.toNat] := by
  unfold Uint32ToBytes
  have h0 : (i >>> 24).toUInt8 = UInt8.ofNat (i.toNat / 2^24) := by
    apply ofNat_eq_of_mod_eq
    rw [u32_toNat_shiftRight _ _ (by decide), Nat.shiftRight_eq_div_pow]; rfl
  have h1 : ((i &&& 0x00FF0000) >>> 16).toUInt8 = UInt8.ofNat (i.toNat / 2^16) := by
    apply ofNat_eq_of_mod_eq
    rw [u32_toNat_shiftRight _ _ (by decide), u32_toNat_and]
    exact mask_shift_byte _ _ 16 (by decide)
  have h2 : ((i &&& 0x0000FF00) >>> 8).toUInt8 = UInt8.ofNat (i.toNat / 2^8) := by
    apply ofNat_eq_of_mod_eq
    rw [u32_toNat_shiftRight _ _ (by decide), u32_toNat_and]
    exact mask_shift_byte _ _ 8 (by decide)
  have h3 : (i &&& 0x000000FF).toUInt8 = UInt8.ofNat i.toNat := by
    apply ofNat_eq_of_mod_eq
    rw [u32_toNat_and]; exact mask_low_byte _
  rw [h0, h1, h2, h3]

theorem Uint64ToBytes_eq (i : UInt64) :
    Uint64ToBytes i = [UInt8.ofNat (i.toNat / 2^56), UInt8.ofNat (i.toNat / 2^48),
      UInt8.ofNat (i.toNat / 2^40), UInt8.ofNat (i.toNat / 2^32), UInt8.ofNat (i.toNat / 2^24),
      UInt8.ofNat (i.toNat / 2^16), UInt8.ofNat (i.toNat / 2^8), UInt8.ofNat i.toNat] := by
  unfold Uint64ToBytes
  have h0 : (i >>> 56).toUInt8 = UInt8.ofNat (i.toNat / 2^56) := by
    apply ofNat_eq_of_mod_eq
    rw [u64_toNat_shiftRight _ _ (by decide), Nat.shiftRight_eq_div_pow]; rfl
  have h1 : ((i &&& 0x00FF000000000000) >>> 48).toUInt8 = UInt8.ofNat (i.toNat / 2^48) := by
    apply ofNat_eq_of_mod_eq
    rw [u64_toNat_shiftRight _ _ (by decide), u64_toNat_and]
    exact mask_shift_byte _ _ 48 (by decide)
  have h2 : ((i &&& 0x0000FF0000000000) >>> 40).toUInt8 = UInt8.ofNat (i.toNat / 2^40) := by
    apply ofNat_eq_of_mod_eq
    rw [u64_toNat_shiftRight _ _ (by decide), u64_toNat_and]
    exact mask_shift_byte _ _ 40 (by decide)
  have h3 : ((i &&& 0x000000FF00000000) >>> 32).toUInt8 = UInt8.ofNat (i.toNat / 2^32) := by
    apply ofNat_eq_of_mod_eq
    rw [u64_toNat_shiftRight _ _ (by decide), u64_toNat_and]
    exact mask_shift_byte _ _ 32 (by decide)
  have h4 : ((i &&& 0x00000000FF000000) >>> 24).toUInt8 = UInt8.ofNat (i.toNat / 2^24) := by
    apply ofNat_eq_of_mod_eq
    rw [u64_toNat_shiftRight _ _ (by decide), u64_toNat_and]
    exact mask_shift_byte _ _ 24 (by decide)
  have h5 : ((i &&& 0x0000000000FF0000) >>> 16).toUInt8 = UInt8.ofNat (i.toNat / 2^16) := by
    apply ofNat_eq_of_mod_eq
    rw [u64_toNat_shiftRight _ _ (by decide), u64_toNat_and]
    exact mask_shift_byte _ _ 16 (by decide)
  have h6 : ((i &&& 0x000000000000FF00) >>> 8).toUInt8 = UInt8.ofNat (i.toNat / 2^8) := by
    apply ofNat_eq_of_mod_eq
    rw [u64_toNat_shiftRight _ _ (by decide), u64_toNat_and]
    exact mask_shift_byte _ _ 8 (by decide)
  have h7 : (i &&& 0x00000000000000FF).toUInt8 = UInt8.ofNat i.toNat := by
    apply ofNat_eq_of_mod_eq
    rw [u64_toNat_and]; exact mask_low_byte _
  rw [h0, h1, h2, h3, h4, h5, h6, h7]

/-- The word assembled by `BytesToUint16` from two bytes is their base-256 value. -/
theorem BytesToUint16_toNat (b0 b1 : UInt8) :
    (BytesToUint16 [b0, b1]).1.toNat = b0.toNat * 2^8 + b1.toNat ∧
      (BytesToUint16 [b0, b1]).2 = none := by
  have l0 := b0.toNat_lt
  have l1 := b1.toNat_lt
  refine ⟨?_, rfl⟩
  show ((b0.toUInt16 <<< 8) ||| b1.toUInt16).toNat = _
  rw [u16_toNat_or, u16_toNat_shiftLeft _ _ (by decide)]
  simp only [UInt8.toUInt16_toNat, Nat.shiftLeft_eq]
  have e : (8 : UInt16).toNat = 8 := rfl
  rw [e, or_eq_add_of_dvd _ _ 8 (by omega) (Nat.dvd_of_mod_eq_zero (by omega))]
  omega

theorem BytesToUint32_toNat (b0 b1 b2 b3 : UInt8) :
    (BytesToUint32 [b0, b1, b2, b3]).1.toNat
        = b0.toNat * 2^24 + b1.toNat * 2^16 + b2.toNat * 2^8 + b3.toNat ∧
      (BytesToUint32 [b0, b1, b2, b3]).2 = none := by
  have l0 := b0.toNat_lt
  have l1 := b1.toNat_lt
  have l2 := b2.toNat_lt
  have l3 := b3.toNat_lt
  refine ⟨?_, rfl⟩
  show ((b0.toUInt32 <<< 24) ||| (b1.toUInt32 <<< 16) ||| (b2.toUInt32 <<< 8)
    ||| b3.toUInt32).toNat = _
  simp only [u32_toNat_or]
  rw [u32_toNat_shiftLeft _ 24 (by decide), u32_toNat_shiftLeft _ 16 (by decide),
    u32_toNat_shiftLeft _ 8 (by decide)]
  simp only [UInt8.toUInt32_toNat, Nat.shiftLeft_eq]
  have e24 : (24 : UInt32).toNat = 24 := rfl
  have e16 : (16 : UInt32).toNat = 16 := rfl
  have e8 : (8 : UInt32).toNat = 8 := rfl
  rw [e24, e16, e8]
  rw [or_eq_add_of_dvd (b0.toNat * 2^24 % 2^32) (b1.toNat * 2^16 % 2^32) 24 (by omega)
        (Nat.dvd_of_mod_eq_zero (by omega)),
      or_eq_add_of_dvd _ (b2.toNat * 2^8 % 2^32) 16 (by omega) (Nat.dvd_of_mod_eq_zero (by omega)),
      or_eq_add_of_dvd _ b3.toNat 8 (by omega) (Nat.dvd_of_mod_eq_zero (by omega))]
  omega

theorem BytesToUint64_toNat (b0 b1 b2 b3 b4 b5 b6 b7 : UInt8) :
    (BytesToUint64 [b0, b1, b2, b3, b4, b5, b6, b7]).1.toNat
        = b0.toNat * 2^56 + b1.toNat * 2^48 + b2.toNat * 2^40 + b3.toNat * 2^32
          + b4.toNat * 2^24 + b5.toNat * 2^16 + b6.toNat * 2^8 + b7.toNat ∧
      (BytesToUint64 [b0, b1, b2, b3, b4, b5, b6, b7]).2 = none := by
  have l0 := b0.toNat_lt
  have l1 := b1.toNat_lt
  have l2 := b2.toNat_lt
  have l3 := b3.toNat_lt
  have l4 := b4.toNat_lt
  have l5 := b5.toNat_lt
  have l6 := b6.toNat_lt
  have l7 := b7.toNat_lt
  refine ⟨?_, rfl⟩
  show ((b0.toUInt64 <<< 56) ||| (b1.toUInt64 <<< 48) ||| (b2.toUInt64 <<< 40)
    ||| (b3.toUInt64 <<< 32) ||| (b4.toUInt64 <<< 24) ||| (b5.toUInt64 <<< 16)
    ||| (b6.toUInt64 <<< 8) ||| b7.toUInt64).toNat = _
  simp only [u64_toNat_or]
  rw [u64_toNat_shiftLeft _ 56 (by decide), u64_toNat_shiftLeft _ 48 (by decide),
    u64_toNat_shiftLeft _ 40 (by decide), u64_toNat_shiftLeft _ 32 (by decide),
    u64_toNat_shiftLeft _ 24 (by decide), u64_toNat_shiftLeft _ 16 (by decide),
    u64_toNat_shiftLeft _ 8 (by decide)]
  simp only [UInt8.toUInt64_toNat, Nat.shiftLeft_eq]
  have e56 : (56 : UInt64).toNat = 56 := rfl
  have e48 : (48 : UInt64).toNat = 48 := rfl
  have e40 : (40 : UInt64).toNat = 40 := rfl
  have e32 : (32 : UInt64).toNat = 32 := rfl
  have e24 : (24 : UInt64).toNat = 24 := rfl
  have e16 : (16 : UInt64).toNat = 16 := rfl
  have e8 : (8 : UInt64).toNat = 8 := rfl
  rw [e56, e48, e40, e32, e24, e16, e8]
  rw [or_eq_add_of_dvd (b0.toNat * 2^56 % 2^64) (b1.toNat * 2^48 % 2^64) 56 (by omega)
        (Nat.dvd_of_mod_eq_zero (by omega)),
      or_eq_add_of_dvd _ (b2.toNat * 2^40 % 2^64) 48 (by omega) (Nat.dvd_of_mod_eq_zero (by omega)),
      or_eq_add_of_dvd _ (b3.toNat * 2^32 % 2^64) 40 (by omega) (Nat.dvd_of_mod_eq_zero (by omega)),
      or_eq_add_of_dvd _ (b4.toNat * 2^24 % 2^64) 32 (by omega) (Nat.dvd_of_mod_eq_zero (by omega)),
      or_eq_add_of_dvd _ (b5.toNat * 2^16 % 2^64) 24 (by omega) (Nat.dvd_of_mod_eq_zero (by omega)),
      or_eq_add_of_dvd _ (b6.toNat * 2^8 % 2^64) 16 (by omega) (Nat.dvd_of_mod_eq_zero (by omega)),
      or_eq_add_of_dvd _ b7.toNat 8 (by omega) (Nat.dvd_of_mod_eq_zero (by omega))]
  omega

theorem BytesToUint16_Uint16ToBytes (x : UInt16) : BytesToUint16 (Uint16ToBytes x) = (x, none) := by
  rw [Uint16ToBytes_eq]
  have h := BytesToUint16_toNat (UInt8.ofNat (x.toNat / 2^8)) (UInt8.ofNat x.toNat)
  have hx := x.toNat_lt
  refine Prod.ext (UInt16.ext ?_) h.2
  rw [h.1]
  show x.toNat / 2^8 % 256 * 2^8 + x.toNat % 256 = x.toNat
  omega

theorem BytesToUint32_Uint32ToBytes (x : UInt32) : BytesToUint32 (Uint32ToBytes x) = (x, none) := by
  rw [Uint32ToBytes_eq]
  have h := BytesToUint32_toNat (UInt8.ofNat (x.toNat / 2^24)) (UInt8.ofNat (x.toNat / 2^16))
    (UInt8.ofNat (x.toNat / 2^8)) (UInt8.ofNat x.toNat)
  have hx := x.toNat_lt
  refine Prod.ext (UInt32.ext ?_) h.2
  rw [h.1]
  show x.toNat / 2^24 % 256 * 2^24 + x.toNat / 2^16 % 256 * 2^16 + x.toNat / 2^8 % 256 * 2^8
    + x.toNat % 256 = x.toNat
  omega

theorem BytesToUint64_Uint64ToBytes (x : UInt64) : BytesToUint64 (Uint64ToBytes x) = (x, none) := by
  rw [Uint64ToBytes_eq]
  have h := BytesToUint64_toNat (UInt8.ofNat (x.toNat / 2^56)) (UInt8.ofNat (x.toNat / 2^48))
    (UInt8.ofNat (x.toNat / 2^40)) (UInt8.ofNat (x.toNat / 2^32)) (UInt8.ofNat (x.toNat / 2^24))
    (UInt8.ofNat (x.toNat / 2^16)) (UInt8.ofNat (x.toNat / 2^8)) (UInt8.ofNat x.toNat)
  have hx := x.toNat_lt
  refine Prod.ext (UInt64.ext ?_) h.2
  rw [h.1]
  show x.toNat / 2^56 % 256 * 2^56 + x.toNat / 2^48 % 256 * 2^48 + x.toNat / 2^40 % 256 * 2^40
    + x.toNat / 2^32 % 256 * 2^32 + x.toNat / 2^24 % 256 * 2^24 + x.toNat / 2^16 % 256 * 2^16
    + x.toNat / 2^8 % 256 * 2^8 + x.toNat % 256 = x.toNat
  omega

/-! ## Base64 -/

theorem encodeChar_spec : ∀ v, v < 64 →
    decodeMap (encodeChar v) = some v ∧ encodeChar v ≠ padChar ∧ encodeChar v ≠ 10
      ∧ encodeChar v ≠ 13 := by
  decide

theorem keep_encodeChar (v : Nat) :
    decide (encodeChar (v % 64) ≠ 10 ∧ encodeChar (v % 64) ≠ 13) = true := by
  have h := encodeChar_spec (v % 64) (Nat.mod_lt _ (by norm_num))
  simp [h.2.2.1, h.2.2.2]

theorem keep_padChar : decide (padChar ≠ 10 ∧ padChar ≠ 13) = true := by decide

/-- An encoded string holds no carriage return and no line feed. -/
theorem filter_EncodeToString (bs : List UInt8) :
    (EncodeToString bs).filter (fun c => c ≠ 10 ∧ c ≠ 13) = EncodeToString bs := by
  induction bs using EncodeToString.induct with
  | case1 a b c rest ih =>
    simp only [EncodeToString, List.filter_cons, keep_encodeChar, keep_padChar, if_true, ih]
  | case2 a b =>
    simp only [EncodeToString, List.filter_cons, keep_encodeChar, keep_padChar, if_true,
      List.filter_nil]
  | case3 a =>
    simp only [EncodeToString, List.filter_cons, keep_encodeChar, keep_padChar, if_true,
      List.filter_nil]
  | case4 => rfl

theorem decodeMap_encodeChar (v : Nat) : decodeMap (encodeChar (v % 64)) = some (v % 64) :=
  (encodeChar_spec (v % 64) (Nat.mod_lt _ (by norm_num))).1

theorem encodeChar_ne_padChar (v : Nat) : (encodeChar (v % 64) = padChar) = False :=
  eq_false (encodeChar_spec (v % 64) (Nat.mod_lt _ (by norm_num))).2.1

theorem decodeQuanta_EncodeToString (bs : List UInt8) :
    decodeQuanta (EncodeToString bs) = .ok bs := by
  induction bs using EncodeToString.induct with
  | case1 a b c rest ih =>
    have ha := a.toNat_lt
    have hb := b.toNat_lt
    have hc := c.toNat_lt
    simp only [EncodeToString, decodeQuanta, decodeMap_encodeChar, encodeChar_ne_padChar,
      if_false, ih]
    have e : (a.toNat * 2^16 + b.toNat * 2^8 + c.toNat) / 2^18 % 64 * 2^18
        + (a.toNat * 2^16 + b.toNat * 2^8 + c.toNat) / 2^12 % 64 * 2^12
        + (a.toNat * 2^16 + b.toNat * 2^8 + c.toNat) / 2^6 % 64 * 2^6
        + (a.toNat * 2^16 + b.toNat * 2^8 + c.toNat) % 64
        = a.toNat * 2^16 + b.toNat * 2^8 + c.toNat := by omega
    rw [e]
    have e0 : UInt8.ofNat ((a.toNat * 2^16 + b.toNat * 2^8 + c.toNat) / 2^16) = a := by
      apply UInt8.ext; show _ % 256 = _; omega
    have e1 : UInt8.ofNat ((a.toNat * 2^16 + b.toNat * 2^8 + c.toNat) / 2^8) = b := by
      apply UInt8.ext; show _ % 256 = _; omega
    have e2 : UInt8.ofNat (a.toNat * 2^16 + b.toNat * 2^8 + c.toNat) = c := by
      apply UInt8.ext; show _ % 256 = _; omega
    rw [e0, e1, e2]
  | case2 a b =>
    have ha := a.toNat_lt
    have hb := b.toNat_lt
    simp only [EncodeToString, decodeQuanta, decodeMap_encodeChar, encodeChar_ne_padChar,
      if_false, if_true]
    have e : (a.toNat * 2^16 + b.toNat * 2^8) / 2^18 % 64 * 2^18
        + (a.toNat * 2^16 + b.toNat * 2^8) / 2^12 % 64 * 2^12
        + (a.toNat * 2^16 + b.toNat * 2^8) / 2^6 % 64 * 2^6
        = a.toNat * 2^16 + b.toNat * 2^8 := by omega
    rw [e]
    have e0 : UInt8.ofNat ((a.toNat * 2^16 + b.toNat * 2^8) / 2^16) = a := by
      apply UInt8.ext; show _ % 256 = _; omega
    have e1 : UInt8.ofNat ((a.toNat * 2^16 + b.toNat * 2^8) / 2^8) = b := by
      apply UInt8.ext; show _ % 256 = _; omega
    rw [e0, e1]
  | case3 a =>
    have ha := a.toNat_lt
    simp only [EncodeToString, decodeQuanta, decodeMap_encodeChar, if_true, and_self]
    have e0 : UInt8.ofNat ((a.toNat * 2^16 / 2^18 % 64 * 2^18
        + a.toNat * 2^16 / 2^12 % 64 * 2^12) / 2^16) = a := by
      apply UInt8.ext; show _ % 256 = _; omega
    rw [e0]
  | case4 => rfl

/-- Decoding inverts encoding. -/
theorem DecodeString_EncodeToString (bs : List UInt8) :
    DecodeString (EncodeToString bs) = .ok bs := by
  unfold DecodeString
  rw [filter_EncodeToString, decodeQuanta_EncodeToString]

/-! ## Digest and cipher -/

theorem sha1Sum_length (msg : List UInt8) : (sha1Sum msg).length = 20 := by
  simp [sha1Sum, be32]

theorem hmacSum_sha1_length (key msg : List UInt8) : (hmacSum sha1New key msg).length = 20 := by
  simp only [hmacSum, sha1New]
  exact sha1Sum_length _

theorem aesEncryptBlock_length (key block : List UInt8) :
    (aesEncryptBlock key block).length = 16 := by
  simp [aesEncryptBlock, addRoundKey]

theorem u8_xor_xor (a b : UInt8) : (a ^^^ b) ^^^ b = a := by
  apply UInt8.ext
  show ((a.toBitVec ^^^ b.toBitVec) ^^^ b.toBitVec).toNat = a.toBitVec.toNat
  rw [BitVec.xor_assoc, BitVec.xor_self, BitVec.xor_zero]

theorem xorBytes_length (a b : List UInt8) : (xorBytes a b).length = min a.length b.length := by
  induction a generalizing b with
  | nil => simp [xorBytes]
  | cons x xs ih =>
    cases b with
    | nil => simp [xorBytes]
    | cons y ys => simp [xorBytes, ih, Nat.succ_min_succ]

theorem xorBytes_xorBytes (a b : List UInt8) (h : a.length ≤ b.length) :
    xorBytes (xorBytes a b) b = a := by
  induction a generalizing b with
  | nil => cases b <;> simp [xorBytes]
  | cons x xs ih =>
    cases b with
    | nil => simp at h
    | cons y ys =>
      simp only [xorBytes, u8_xor_xor]
      rw [ih ys (by simpa using h)]

theorem cfbXORKeyStream_length (d : Bool) (b : List UInt8 → List UInt8)
    (hb : ∀ x, (b x).length = 16) (n : Nat) (next src : List UInt8) (hn : src.length ≤ n) :
    (cfbXORKeyStream d b n next src).length = src.length := by
  induction n generalizing next src with
  | zero =>
    cases src with
    | nil => simp [cfbXORKeyStream]
    | cons x xs => simp at hn
  | succ n ih =>
    cases src with
    | nil => simp [cfbXORKeyStream]
    | cons x xs =>
      simp only [cfbXORKeyStream, List.length_append, xorBytes_length, hb, List.length_take]
      rw [ih _ _ (by simp only [List.length_drop]; simp only [List.length_cons] at hn ⊢; omega)]
      simp only [List.length_drop, List.length_cons]
      omega

theorem cfbXORKeyStream_nil (d : Bool) (b : List UInt8 → List UInt8) (n : Nat)
    (next : List UInt8) : cfbXORKeyStream d b n next [] = [] := by
  cases n <;> rfl

theorem cfbXORKeyStream_step (d : Bool) (b : List UInt8 → List UInt8) (n : Nat)
    (next src : List UInt8) (h : src ≠ []) :
    cfbXORKeyStream d b (n + 1) next src
      = xorBytes (src.take 16) (b next)
        ++ cfbXORKeyStream d b n (if d then src.take 16 else xorBytes (src.take 16) (b next))
          (src.drop 16) := by
  cases src with
  | nil => exact absurd rfl h
  | cons x xs => rfl

/-- The CFB decrypter undoes the CFB encrypter over the same block function and register. -/
theorem cfb_decrypt_encrypt (b : List UInt8 → List UInt8) (hb : ∀ x, (b x).length = 16)
    (n : Nat) (next src : List UInt8) (hn : src.length ≤ n) :
    cfbXORKeyStream true b n next (cfbXORKeyStream false b n next src) = src := by
  induction n generalizing next src with
  | zero =>
    have : src = [] := List.length_eq_zero.mp (by omega)
    subst this
    rfl
  | succ n ih =>
    by_cases hs : src = []
    · subst hs; rfl
    · have hpos : 0 < src.length := List.length_pos.mpr hs
      rw [cfbXORKeyStream_step false b n next src hs]
      simp only [Bool.false_eq_true, if_false]
      have hlen : (xorBytes (src.take 16) (b next)).length = min 16 src.length := by
        rw [xorBytes_length, hb, List.length_take]; omega
      have hdl : (src.drop 16).length ≤ n := by rw [List.length_drop]; omega
      have hrest := cfbXORKeyStream_length false b hb n (xorBytes (src.take 16) (b next))
        (src.drop 16) hdl
      have hih := ih (xorBytes (src.take 16) (b next)) (src.drop 16) hdl
      have hxx : xorBytes (xorBytes (src.take 16) (b next)) (b next) = src.take 16 :=
        xorBytes_xorBytes _ _ (by rw [hb, List.length_take]; omega)
      generalize xorBytes (src.take 16) (b next) = c at hlen hrest hih hxx ⊢
      generalize cfbXORKeyStream false b n c (src.drop 16) = r at hrest hih ⊢
      have hne : c ++ r ≠ [] := by
        intro h0
        have := congrArg List.length h0
        simp only [List.length_append, List.length_nil] at this
        omega
      have hsplit : (c ++ r).take 16 = c ∧ (c ++ r).drop 16 = r := by
        by_cases hfull : 16 ≤ src.length
        · have hc : c.length = 16 := by omega
          constructor
          · rw [← hc]; exact List.take_left c r
          · rw [← hc]; exact List.drop_left c r
        · have hr0 : r = [] := List.length_eq_zero.mp (by rw [hrest, List.length_drop]; omega)
          subst hr0
          rw [List.append_nil]
          exact ⟨List.take_of_length_le (by omega), List.drop_eq_nil_of_le (by omega)⟩
      rw [cfbXORKeyStream_step true b n next (c ++ r) hne]
      simp only [if_true, hsplit.1, hsplit.2, hih, hxx]
      exact List.take_append_drop 16 src

theorem aesNewCipher_ok (key : List UInt8) (h : key.length = 16 ∨ key.length = 32) :
    aesNewCipher key = .ok (aesEncryptBlock key) := by
  unfold aesNewCipher
  rw [if_pos (by omega)]

theorem EncryptAES_ok (key data : List UInt8) (h : key.length = 16 ∨ key.length = 32) :
    EncryptAES key data
      = .ok (cfbXORKeyStream false (aesEncryptBlock key) data.length commonIV data) := by
  simp only [EncryptAES, aesNewCipher_ok key h]

theorem EncryptAES_length (key data out : List UInt8) (h : EncryptAES key data = .ok out) :
    out.length = data.length := by
  unfold EncryptAES at h
  cases hc : aesNewCipher key with
  | error e => rw [hc] at h; simp at h
  | ok c =>
    rw [hc] at h
    simp only [Except.ok.injEq] at h
    unfold aesNewCipher at hc
    split at hc
    · simp only [Except.ok.injEq] at hc
      rw [← h, ← hc]
      exact cfbXORKeyStream_length _ _ (aesEncryptBlock_length key) _ _ _ (Nat.le_refl _)
    · simp at hc

/-- Decryption undoes encryption under the same key. -/
theorem DecryptAES_EncryptAES (key data out : List UInt8) (h : EncryptAES key data = .ok out) :
    DecryptAES key out = .ok data := by
  have hl := EncryptAES_length key data out h
  unfold EncryptAES at h
  unfold DecryptAES
  cases hc : aesNewCipher key with
  | error e => rw [hc] at h; simp at h
  | ok c =>
    rw [hc] at h
    simp only [Except.ok.injEq] at h ⊢
    unfold aesNewCipher at hc
    split at hc
    · simp only [Except.ok.injEq] at hc
      rw [hl, ← h, ← hc]
      exact cfb_decrypt_encrypt _ (aesEncryptBlock_length key) _ _ _ (Nat.le_refl _)
    · simp at hc

/-! ## Buffers -/

theorem copyAt_zeros (pre src : List UInt8) (k : Nat) :
    copyAt (pre ++ List.replicate k 0) pre.length src
      = pre ++ src.take k ++ List.replicate (k - src.length) 0 := by
  unfold copyAt
  have h1 : (pre ++ List.replicate k (0 : UInt8)).take pre.length = pre := List.take_left pre _
  have h2 : (pre ++ List.replicate k (0 : UInt8)).length - pre.length = k := by simp
  have h3 : (pre ++ List.replicate k (0 : UInt8)).drop (pre.length + src.length)
      = List.replicate (k - src.length) 0 := by
    rw [← List.drop_drop, List.drop_left, List.drop_replicate]
  rw [h1, h2, h3]

theorem copyAt_zeros_of_le (pre src : List UInt8) (k : Nat) (h : src.length ≤ k) :
    copyAt (pre ++ List.replicate k 0) pre.length src
      = (pre ++ src) ++ List.replicate (k - src.length) 0 := by
  rw [copyAt_zeros, List.take_of_length_le h]

theorem set_zeros (pre : List UInt8) (k : Nat) (v : UInt8) :
    (pre ++ List.replicate (k + 1) 0).set pre.length v = (pre ++ [v]) ++ List.replicate k 0 := by
  rw [List.set_append_right _ _ (Nat.le_refl _), Nat.sub_self, List.replicate_succ, List.set_cons_zero]
  simp

/-- The record that `Put` lays out before the digest. -/
theorem fillBuff_eq {δ : Type} (cs : CookieStore δ) (s : Session δ) (serData : List UInt8) :
    cs.fillBuff s serData
      = (Uint32ToBytes s.Expiry ++ Uint64ToBytes s.Flags ++ [UInt8.ofNat s.LoginName.length]
          ++ s.LoginName ++ serData)
        ++ (hmacSum cs.hashAlgo cs.hashKey
              (Uint32ToBytes s.Expiry ++ Uint64ToBytes s.Flags ++ [UInt8.ofNat s.LoginName.length]
                ++ s.LoginName ++ serData)).take cs.hashSize
        ++ List.replicate (cs.hashSize - (hmacSum cs.hashAlgo cs.hashKey
              (Uint32ToBytes s.Expiry ++ Uint64ToBytes s.Flags ++ [UInt8.ofNat s.LoginName.length]
                ++ s.LoginName ++ serData)).length) 0 := by
  unfold CookieStore.fillBuff
  have e4 : (Uint32ToBytes s.Expiry).length = 4 := rfl
  have e8 : (Uint64ToBytes s.Flags).length = 8 := rfl
  generalize Uint32ToBytes s.Expiry = e at e4 ⊢
  generalize Uint64ToBytes s.Flags = f at e8 ⊢
  generalize hL : s.LoginName.length = L
  generalize hS : serData.length = S
  generalize cs.hashSize = H
  simp only []
  have s1 : copyAt (List.replicate (13 + L + S + H) (0 : UInt8)) 0 e
      = e ++ List.replicate (9 + L + S + H) 0 := by
    have := copyAt_zeros_of_le [] e (13 + L + S + H) (by omega)
    simp only [List.nil_append, List.length_nil] at this
    rw [this, e4]; congr 2; omega
  have s2 : copyAt (e ++ List.replicate (9 + L + S + H) (0 : UInt8)) 4 f
      = (e ++ f) ++ List.replicate (L + S + H + 1) 0 := by
    have := copyAt_zeros_of_le e f (9 + L + S + H) (by omega)
    rw [e4] at this
    rw [this, e8]; congr 2; omega
  have s3 : ((e ++ f) ++ List.replicate (L + S + H + 1) (0 : UInt8)).set 12 (UInt8.ofNat L)
      = (e ++ f ++ [UInt8.ofNat L]) ++ List.replicate (L + S + H) 0 := by
    have := set_zeros (e ++ f) (L + S + H) (UInt8.ofNat L)
    rw [List.length_append, e4, e8] at this
    exact this
  have s4 : copyAt ((e ++ f ++ [UInt8.ofNat L]) ++ List.replicate (L + S + H) (0 : UInt8)) 13
      s.LoginName = (e ++ f ++ [UInt8.ofNat L] ++ s.LoginName) ++ List.replicate (S + H) 0 := by
    have := copyAt_zeros_of_le (e ++ f ++ [UInt8.ofNat L]) s.LoginName (L + S + H) (by omega)
    simp only [List.length_append, e4, e8, List.length_singleton] at this
    rw [this, hL]; congr 2; omega
  have s5 : copyAt ((e ++ f ++ [UInt8.ofNat L] ++ s.LoginName) ++ List.replicate (S + H) (0 : UInt8))
      (13 + L) serData
      = (e ++ f ++ [UInt8.ofNat L] ++ s.LoginName ++ serData) ++ List.replicate H 0 := by
    have := copyAt_zeros_of_le (e ++ f ++ [UInt8.ofNat L] ++ s.LoginName) serData (S + H) (by omega)
    simp only [List.length_append, e4, e8, List.length_singleton, hL] at this
    rw [this, hS]; congr 2; omega
  have hlen : (e ++ f ++ [UInt8.ofNat L] ++ s.LoginName ++ serData).length = 13 + L + S := by
    simp only [List.length_append, e4, e8, List.length_singleton, hL, hS]
  rw [s1, s2, s3, s4, s5, ← hlen, List.take_left, copyAt_zeros]

/-! ## `Put` and `Get` on a record -/

theorem u8_thirteen_add (L : Nat) : ((13 : UInt8) + UInt8.ofNat L).toNat = (13 + L % 256) % 256 :=
  rfl

/-- The fields `Get` reads back from a record laid out as `Put` writes it, for a login name
of at most 242 bytes. -/
theorem extract_record {δ : Type} (cs : CookieStore δ) (e : UInt32) (f : UInt64)
    (login ser mac : List UInt8) (hL : login.length ≤ 242) (hmac : mac.length = cs.hashSize) :
    cs.extract (Uint32ToBytes e ++ Uint64ToBytes f ++ [UInt8.ofNat login.length] ++ login ++ ser
        ++ mac)
      = if ser.length > 0 then
          match cs.dataAllocator with
          | none => .panic
          | some dataAllocator =>
            match cs.dataEnc with
            | none => .panic
            | some dataEnc =>
              match dataEnc.Decode (dataAllocator ()) ser with
              | .error err => .ret (none, some err)
              | .ok d =>
                .ret (some { Expiry := e, Flags := f, LoginName := login, Data := some d }, none)
        else .ret (some { Expiry := e, Flags := f, LoginName := login }, none) := by
  have he := BytesToUint32_Uint32ToBytes e
  have hf := BytesToUint64_Uint64ToBytes f
  have e4 : (Uint32ToBytes e).length = 4 := rfl
  have e8 : (Uint64ToBytes f).length = 8 := rfl
  generalize Uint32ToBytes e = eb at he e4 ⊢
  generalize Uint64ToBytes f = fb at hf e8 ⊢
  have h13 : ((13 : UInt8) + UInt8.ofNat login.length).toNat = 13 + login.length := by
    rw [u8_thirteen_add]; omega
  have hlen : (eb ++ fb ++ [UInt8.ofNat login.length] ++ login ++ ser ++ mac).length
      = 13 + login.length + ser.length + cs.hashSize := by
    simp only [List.length_append, e4, e8, List.length_singleton, hmac]
  have t4 : ((eb ++ fb ++ [UInt8.ofNat login.length] ++ login ++ ser ++ mac).take 4).drop 0 = eb := by
    simp only [List.append_assoc, List.drop_zero]
    rw [← e4]; exact List.take_left eb _
  have t12 : ((eb ++ fb ++ [UInt8.ofNat login.length] ++ login ++ ser ++ mac).take 12).drop 4
      = fb := by
    have : (eb ++ fb ++ [UInt8.ofNat login.length] ++ login ++ ser ++ mac)
        = (eb ++ fb) ++ ([UInt8.ofNat login.length] ++ login ++ ser ++ mac) := by
      simp only [List.append_assoc]
    rw [this]
    have h12 : (eb ++ fb).length = 12 := by simp [e4, e8]
    rw [← h12, List.take_left, ← e4, List.drop_left]
  have g12 : (eb ++ fb ++ [UInt8.ofNat login.length] ++ login ++ ser ++ mac).getD 12 0
      = UInt8.ofNat login.length := by
    have : (eb ++ fb ++ [UInt8.ofNat login.length] ++ login ++ ser ++ mac)
        = (eb ++ fb) ++ (UInt8.ofNat login.length :: (login ++ ser ++ mac)) := by
      simp only [List.append_assoc, List.singleton_append, List.cons_append, List.nil_append]
    rw [this]
    have h12 : (eb ++ fb).length = 12 := by simp [e4, e8]
    rw [List.getD_eq_getElem?_getD, List.getElem?_append_right (by omega), h12]
    simp
  have sl1 : slice (eb ++ fb ++ [UInt8.ofNat login.length] ++ login ++ ser ++ mac) 13
      (13 + login.length) = some login := by
    unfold slice
    rw [if_pos (by rw [hlen]; omega)]
    have : (eb ++ fb ++ [UInt8.ofNat login.length] ++ login ++ ser ++ mac)
        = ((eb ++ fb ++ [UInt8.ofNat login.length]) ++ login) ++ (ser ++ mac) := by
      simp only [List.append_assoc]
    rw [this]
    have h13l : (eb ++ fb ++ [UInt8.ofNat login.length]).length = 13 := by simp [e4, e8]
    have hl : ((eb ++ fb ++ [UInt8.ofNat login.length]) ++ login).length = 13 + login.length := by
      rw [List.length_append, h13l]
    rw [← hl, List.take_left, ← h13l, List.drop_left]
  have sl2 : slice (eb ++ fb ++ [UInt8.ofNat login.length] ++ login ++ ser ++ mac)
      (13 + login.length)
      ((eb ++ fb ++ [UInt8.ofNat login.length] ++ login ++ ser ++ mac).length - cs.hashSize)
      = some ser := by
    unfold slice
    rw [if_pos (by rw [hlen]; omega)]
    have hl : (eb ++ fb ++ [UInt8.ofNat login.length] ++ login).length = 13 + login.length := by
      simp [e4, e8]; omega
    have hl2 : (eb ++ fb ++ [UInt8.ofNat login.length] ++ login ++ ser).length
        = (eb ++ fb ++ [UInt8.ofNat login.length] ++ login ++ ser ++ mac).length - cs.hashSize := by
      rw [hlen]; simp only [List.length_append, e4, e8, List.length_singleton]; omega
    rw [← hl2, List.take_left, ← hl, List.drop_left]
  unfold CookieStore.extract
  simp only [t4, t12, g12, h13, sl1, sl2, he, hf]

theorem NewCookieStore_fields {δ : Type} {hashKey : List UInt8} {encKey : Option (List UInt8)}
    {enc : Option (SessionDataCoder δ)} {alloc : Option (Unit → δ)} {cs : CookieStore δ}
    (h : NewCookieStore hashKey encKey enc alloc = (some cs, none)) :
    cs = { hashAlgo := sha1New, hashSize := sha1Size, hashKey := hashKey, encKey := encKey,
           dataEnc := enc, dataAllocator := alloc } := by
  simp only [NewCookieStore] at h
  by_cases h1 : lenOf encKey ≠ 0 ∧ lenOf encKey ≠ 16 ∧ lenOf encKey ≠ 32
  · rw [if_pos h1] at h; simp at h
  · rw [if_neg h1] at h
    by_cases h2 : (enc.isNone ∧ alloc.isSome) ∨ (enc.isSome ∧ alloc.isNone)
    · rw [if_pos h2] at h; simp at h
    · rw [if_neg h2] at h
      simp only [Prod.mk.injEq, Option.some.injEq, and_true] at h
      exact h.symm

/-- The digest of a store built by `NewCookieStore` has `hashSize` bytes. -/
theorem NewCookieStore_digest_length {δ : Type} {hashKey : List UInt8}
    {encKey : Option (List UInt8)} {enc : Option (SessionDataCoder δ)} {alloc : Option (Unit → δ)}
    {cs : CookieStore δ} (h : NewCookieStore hashKey encKey enc alloc = (some cs, none))
    (m : List UInt8) : (hmacSum cs.hashAlgo cs.hashKey m).length = cs.hashSize := by
  rw [NewCookieStore_fields h]
  exact hmacSum_sha1_length _ _

/-- The buffer of `Put` when the digest has `hashSize` bytes: the record, then its digest. -/
theorem fillBuff_eq_record {δ : Type} (cs : CookieStore δ) (s : Session δ) (serData : List UInt8)
    (hH : ∀ m, (hmacSum cs.hashAlgo cs.hashKey m).length = cs.hashSize) :
    cs.fillBuff s serData
      = (Uint32ToBytes s.Expiry ++ Uint64ToBytes s.Flags ++ [UInt8.ofNat s.LoginName.length]
          ++ s.LoginName ++ serData)
        ++ hmacSum cs.hashAlgo cs.hashKey
              (Uint32ToBytes s.Expiry ++ Uint64ToBytes s.Flags ++ [UInt8.ofNat s.LoginName.length]
                ++ s.LoginName ++ serData) := by
  rw [fillBuff_eq, hH, Nat.sub_self, List.replicate_zero, List.append_nil,
    List.take_of_length_le (Nat.le_of_eq (hH _))]

theorem record_length (e : UInt32) (f : UInt64) (l : UInt8) (login ser : List UInt8) :
    (Uint32ToBytes e ++ Uint64ToBytes f ++ [l] ++ login ++ ser).length
      = 13 + login.length + ser.length := by
  have e4 : (Uint32ToBytes e).length = 4 := rfl
  have e8 : (Uint64ToBytes f).length = 8 := rfl
  simp only [List.length_append, e4, e8, List.length_singleton]

/-- What `Put` returns once the payload has been serialised. -/
theorem Put_of_serData {δ : Type} (cs : CookieStore δ) (s : Session δ) (ser : List UInt8)
    (hL : s.LoginName.length ≤ 255) (hser : cs.serData s = .ret (.ok ser)) :
    cs.Put (some s)
      = match cs.encKey with
        | some encKey =>
          match EncryptAES encKey (cs.fillBuff s ser) with
          | .error err => .ret ([], some err)
          | .ok buff => .ret (EncodeToString buff, none)
        | none => .ret (EncodeToString (cs.fillBuff s ser), none) := by
  unfold CookieStore.Put
  simp only [hser]
  rw [if_neg (by omega)]

/-- The serialised payload under the reading of the claims: empty for nil `Data`, the coder's
encoding otherwise. -/
theorem serData_of {δ : Type} (cs : CookieStore δ) (s : Session δ) (ser : List UInt8)
    (h : (s.Data = none ∧ ser = [])
      ∨ ∃ d c, s.Data = some d ∧ cs.dataEnc = some c ∧ c.Encode d = .ok ser) :
    cs.serData s = .ret (.ok ser) := by
  unfold CookieStore.serData
  rcases h with ⟨h1, h2⟩ | ⟨d, c, h1, h2, h3⟩
  · simp only [h1, h2]
  · simp only [h1, h2, h3]

/-- On a token that carries a record followed by its own digest, `Get` goes on to extract
the fields. `payload` is the record and digest as they travel: in clear without cipher key,
encrypted with one. -/
theorem Get_of_record {δ : Type} (cs : CookieStore δ) (R payload : List UInt8)
    (hH : ∀ m, (hmacSum cs.hashAlgo cs.hashKey m).length = cs.hashSize)
    (hR : 13 ≤ R.length)
    (hp : match cs.encKey with
      | none => payload = R ++ hmacSum cs.hashAlgo cs.hashKey R
      | some k => EncryptAES k (R ++ hmacSum cs.hashAlgo cs.hashKey R) = .ok payload) :
    cs.Get (EncodeToString payload) = cs.extract (R ++ hmacSum cs.hashAlgo cs.hashKey R) := by
  have hlenRM : (R ++ hmacSum cs.hashAlgo cs.hashKey R).length = R.length + cs.hashSize := by
    rw [List.length_append, hH]
  have hpl : payload.length = R.length + cs.hashSize := by
    cases hk : cs.encKey with
    | none => rw [hk] at hp; rw [hp, hlenRM]
    | some k => rw [hk] at hp; rw [EncryptAES_length k _ _ hp, hlenRM]
  have hdec : (match cs.encKey with
      | some encKey => DecryptAES encKey payload
      | none => Except.ok payload) = .ok (R ++ hmacSum cs.hashAlgo cs.hashKey R) := by
    cases hk : cs.encKey with
    | none => rw [hk] at hp; simp only [hp]
    | some k => rw [hk] at hp; exact DecryptAES_EncryptAES k _ _ hp
  unfold CookieStore.Get
  simp only [DecodeString_EncodeToString, hdec]
  rw [if_neg (by omega)]
  have hsub : payload.length - cs.hashSize = R.length := by omega
  rw [hsub, List.take_left, List.drop_left]
  simp

/-! ## Known answers of the primitives and concrete digests -/

set_option maxRecDepth 1000000 in
/-- Known answer of FIPS 180 for the message "abc". -/
theorem sha1Sum_abc :
    sha1Sum (bytesOf "abc")
      = [0xa9, 0x99, 0x3e, 0x36, 0x47, 0x06, 0x81, 0x6a, 0xba, 0x3e, 0x25, 0x71, 0x78, 0x50, 0xc2,
          0x6c, 0x9c, 0xd0, 0xd8, 0x9d] := by
  decide

set_option maxRecDepth 1000000 in
/-- Known answer of RFC 2202, test case 2 of HMAC-SHA-1. -/
theorem hmacSum_rfc2202 :
    hmacSum sha1New (bytesOf "Jefe") (bytesOf "what do ya want for nothing?")
      = [0xef, 0xfc, 0xdf, 0x6a, 0xe5, 0xeb, 0x2f, 0xa2, 0xd2, 0x74, 0x16, 0xd5, 0xf1, 0x84, 0xdf,
          0x9c, 0x25, 0x9a, 0x7c, 0x79] := by
  decide

set_option maxRecDepth 1000000 in
set_option maxHeartbeats 4000000 in
/-- Known answer of FIPS 197, appendix C.1 (AES-128). -/
theorem aesEncryptBlock_fips197 :
    aesEncryptBlock
        [0x00, 0x01, 0x02, 0x03, 0x04, 0x05, 0x06, 0x07, 0x08, 0x09, 0x0a, 0x0b, 0x0c, 0x0d, 0x0e,
          0x0f]
        [0x00, 0x11, 0x22, 0x33, 0x44, 0x55, 0x66, 0x77, 0x88, 0x99, 0xaa, 0xbb, 0xcc, 0xdd, 0xee,
          0xff]
      = [0x69, 0xc4, 0xe0, 0xd8, 0x6a, 0x7b, 0x04, 0x30, 0xd8, 0xcd, 0xb7, 0x80, 0x70, 0xb4, 0xc5,
          0x5a] := by
  decide

set_option maxRecDepth 1000000 in
/-- HMAC-SHA1 under the key "1234" of the record of the zero session. -/
theorem hmac_zero_record :
    hmacSum sha1New (bytesOf "1234") [0, 0, 0, 0, 0, 0, 0, 0, 0, 0, 0, 0, 0]
      = [0x2e, 0x3b, 0xd6, 0x5b, 0x34, 0x90, 0xc9, 0xaf, 0xe4, 0xe7, 0x2b, 0x54, 0xa0, 0x79, 0xa3,
          0x5a, 0xb2, 0x57, 0xca, 0xa8] := by
  decide

/-- Without cipher key, a token whose decoded bytes end in the digest of what precedes it goes
on to the extraction of the fields. -/
theorem Get_of_matching_digest {δ : Type} (cs : CookieStore δ) (cookieVal byts : List UInt8)
    (hk : cs.encKey = none) (hdec : DecodeString cookieVal = .ok byts)
    (hlen : 13 + cs.hashSize ≤ byts.length)
    (hsum : hmacSum cs.hashAlgo cs.hashKey (byts.take (byts.length - cs.hashSize))
      = byts.drop (byts.length - cs.hashSize)) :
    cs.Get cookieVal = cs.extract byts := by
  unfold CookieStore.Get
  simp only [hdec, hk]
  rw [if_neg (by omega), if_neg (by rw [hsum]; simp)]

/-- What `Put` returns without cipher key, once the digest of the record is known. -/
theorem Put_of_digest {δ : Type} (cs : CookieStore δ) (s : Session δ) (ser R D : List UInt8)
    (hk : cs.encKey = none) (hL : s.LoginName.length ≤ 255)
    (hser : cs.serData s = .ret (.ok ser))
    (hR : Uint32ToBytes s.Expiry ++ Uint64ToBytes s.Flags ++ [UInt8.ofNat s.LoginName.length]
      ++ s.LoginName ++ ser = R)
    (hD : hmacSum cs.hashAlgo cs.hashKey R = D) (hDlen : D.length = cs.hashSize) :
    cs.Put (some s) = .ret (EncodeToString (R ++ D), none) := by
  have hput := Put_of_serData cs s ser hL hser
  rw [hk] at hput
  simp only [] at hput
  rw [hput, fillBuff_eq, hR, hD, hDlen, Nat.sub_self, List.replicate_zero, List.append_nil,
    List.take_of_length_le (Nat.le_of_eq hDlen)]

/-- C6. `NewCookieStore` returns an error and no store exactly when the cipher-key length is
not 0, 16 or 32 or exactly one of coder and factory is nil; in every other case it returns a
store and no error, whatever the digest key. -/
theorem NewCookieStore_validation {δ : Type} (hashKey : List UInt8)
    (encKey : Option (List UInt8)) (enc : Option (SessionDataCoder δ))
    (alloc : Option (Unit → δ)) :
    (((NewCookieStore hashKey encKey enc alloc).1 = none
        ∧ (NewCookieStore hashKey encKey enc alloc).2 ≠ none)
      ↔ ((lenOf encKey ≠ 0 ∧ lenOf encKey ≠ 16 ∧ lenOf encKey ≠ 32)
          ∨ (enc = none ∧ alloc ≠ none) ∨ (enc ≠ none ∧ alloc = none)))
    ∧ (((NewCookieStore hashKey encKey enc alloc).1 ≠ none
        ∧ (NewCookieStore hashKey encKey enc alloc).2 = none)
      ↔ ¬ ((lenOf encKey ≠ 0 ∧ lenOf encKey ≠ 16 ∧ lenOf encKey ≠ 32)
          ∨ (enc = none ∧ alloc ≠ none) ∨ (enc ≠ none ∧ alloc = none))) := by
  simp only [NewCookieStore]
  by_cases h1 : lenOf encKey ≠ 0 ∧ lenOf encKey ≠ 16 ∧ lenOf encKey ≠ 32
  · rw [if_pos h1]
    simp [h1]
  · rw [if_neg h1]
    cases enc <;> cases alloc <;> simp [h1]

/-- C7. Each of the three decoders inverts its encoder on every value, and returns an error,
with value 0, exactly when the slice has not the width's length. -/
theorem byte_packing_contract (x16 : UInt16) (x32 : UInt32) (x64 : UInt64) (b : List UInt8) :
    BytesToUint16 (Uint16ToBytes x16) = (x16, none)
    ∧ BytesToUint32 (Uint32ToBytes x32) = (x32, none)
    ∧ BytesToUint64 (Uint64ToBytes x64) = (x64, none)
    ∧ ((BytesToUint16 b).2 ≠ none ↔ b.length ≠ 2)
    ∧ ((BytesToUint32 b).2 ≠ none ↔ b.length ≠ 4)
    ∧ ((BytesToUint64 b).2 ≠ none ↔ b.length ≠ 8)
    ∧ ((BytesToUint16 b).2 ≠ none ↔ BytesToUint16 b = (0, some (.arrayLength 4)))
    ∧ ((BytesToUint32 b).2 ≠ none ↔ BytesToUint32 b = (0, some (.arrayLength 4)))
    ∧ ((BytesToUint64 b).2 ≠ none ↔ BytesToUint64 b = (0, some (.arrayLength 8))) := by
  refine ⟨BytesToUint16_Uint16ToBytes x16, BytesToUint32_Uint32ToBytes x32,
    BytesToUint64_Uint64ToBytes x64, ?_, ?_, ?_, ?_, ?_, ?_⟩
  · unfold BytesToUint16; by_cases h : b.length ≠ 2 <;> simp [h]
  · unfold BytesToUint32; by_cases h : b.length ≠ 4 <;> simp [h]
  · unfold BytesToUint64; by_cases h : b.length ≠ 8 <;> simp [h]
  · unfold BytesToUint16; by_cases h : b.length ≠ 2 <;> simp [h]
  · unfold BytesToUint32; by_cases h : b.length ≠ 4 <;> simp [h]
  · unfold BytesToUint64; by_cases h : b.length ≠ 8 <;> simp [h]

/-! ## Failure paths of `Get` -/

theorem NewCookieStore_hashSize {δ : Type} {hashKey : List UInt8} {encKey : Option (List UInt8)}
    {enc : Option (SessionDataCoder δ)} {alloc : Option (Unit → δ)} {cs : CookieStore δ}
    (h : NewCookieStore hashKey encKey enc alloc = (some cs, none)) : cs.hashSize = 20 := by
  rw [NewCookieStore_fields h]; rfl

/-- A token that decodes to fewer than `13 + hashSize` bytes is turned down before the key,
the digest or the coder are looked at. -/
theorem Get_of_short {δ : Type} (cs : CookieStore δ) (cookieVal byts : List UInt8)
    (hb : DecodeString cookieVal = .ok byts) (hlen : byts.length < 13 + cs.hashSize) :
    cs.Get cookieVal = .ret (none, some .invalidCookieLength) := by
  unfold CookieStore.Get
  simp only [hb]
  rw [if_pos hlen]

/-- C8. On a store built by `NewCookieStore`, a token that is not valid URL-safe base64, or
whose decoding is shorter than `13 + hashSize = 33` bytes, makes `Get` return a nil session
and the decode error, respectively the length error. The result is the same whatever the
cipher key, the digest key and the coder of the store are, absent ones included: none of them
is run. -/
theorem Get_input_errors {δ : Type} (hashKey : List UInt8) (encKey : Option (List UInt8))
    (enc : Option (SessionDataCoder δ)) (alloc : Option (Unit → δ)) (cs : CookieStore δ)
    (hcs : NewCookieStore hashKey encKey enc alloc = (some cs, none)) (cookieVal : List UInt8)
    (h : (∃ e, DecodeString cookieVal = .error e)
      ∨ ∃ byts, DecodeString cookieVal = .ok byts ∧ byts.length < 33) :
    13 + cs.hashSize = 33
    ∧ cs.Get cookieVal
        = .ret (none, some (match DecodeString cookieVal with
                            | .error e => e
                            | .ok _ => Error.invalidCookieLength)) := by
  have hs : cs.hashSize = 20 := NewCookieStore_hashSize hcs
  refine ⟨by rw [hs], ?_⟩
  rcases h with ⟨e, he⟩ | ⟨byts, hb, hlen⟩
  · unfold CookieStore.Get
    simp only [he]
  · rw [Get_of_short cs cookieVal byts hb (by omega)]
    simp only [hb]

/-- Witness of C8: the empty token, on the store of the test. -/
theorem Get_input_errors_witness :
    13 + testStore.hashSize = 33
    ∧ testStore.Get []
        = .ret (none, some (match DecodeString [] with
                            | .error e => e
                            | .ok _ => Error.invalidCookieLength)) :=
  Get_input_errors (bytesOf "1234") (some (bytesOf "1234567890abcdef")) (some rawCoder)
    (some fun _ => []) testStore rfl [] (Or.inr ⟨[], rfl, by decide⟩)

/-- C3. When the token decodes to at least `13 + hashSize` bytes and the digest recomputed
over all but the last `hashSize` bytes of the record (decrypted when a cipher key is set)
differs from those last bytes, `Get` returns the tampered error with a session whose state is
EXPIRED and whose other fields are zero. The coder and the factory are arbitrary, absent ones
included: they are not called. -/
theorem Get_digest_mismatch {δ : Type} (cs : CookieStore δ)
    (enc : Option (SessionDataCoder δ)) (alloc : Option (Unit → δ))
    (cookieVal byts rawData : List UInt8)
    (hdec : DecodeString cookieVal = .ok byts) (hlen : 13 + cs.hashSize ≤ byts.length)
    (hraw : (cs.encKey = none ∧ rawData = byts)
      ∨ ∃ k, cs.encKey = some k ∧ DecryptAES k byts = .ok rawData)
    (hne : hmacSum cs.hashAlgo cs.hashKey (rawData.take (byts.length - cs.hashSize))
      ≠ rawData.drop (byts.length - cs.hashSize)) :
    CookieStore.Get { cs with dataEnc := enc, dataAllocator := alloc } cookieVal
      = .ret (some { State := .EXPIRED, Expiry := 0, Flags := 0, LoginName := [], Token := [],
                     Data := none }, some .tampered) := by
  unfold CookieStore.Get
  simp only [hdec]
  rw [if_neg (by omega)]
  rcases hraw with ⟨hk, rfl⟩ | ⟨k, hk, hd⟩
  · simp only [hk]
    rw [if_pos hne]
  · simp only [hk, hd]
    rw [if_pos hne]

/-- Witness of C3: the token of the zero session under digest key "1234" with its last
character changed from `o` to `p`, which alters the last byte of the digest. -/
theorem Get_digest_mismatch_witness :
    CookieStore.Get ({ plainStore with dataEnc := none, dataAllocator := none } : CookieStore Unit)
        (bytesOf "AAAAAAAAAAAAAAAAAC471ls0kMmv5OcrVKB5o1qyV8qp")
      = .ret (some { State := .EXPIRED, Expiry := 0, Flags := 0, LoginName := [], Token := [],
                     Data := none }, some .tampered) :=
  Get_digest_mismatch plainStore none none
    (bytesOf "AAAAAAAAAAAAAAAAAC471ls0kMmv5OcrVKB5o1qyV8qp")
    [0, 0, 0, 0, 0, 0, 0, 0, 0, 0, 0, 0, 0, 0x2e, 0x3b, 0xd6, 0x5b, 0x34, 0x90, 0xc9, 0xaf, 0xe4,
      0xe7, 0x2b, 0x54, 0xa0, 0x79, 0xa3, 0x5a, 0xb2, 0x57, 0xca, 0xa9]
    [0, 0, 0, 0, 0, 0, 0, 0, 0, 0, 0, 0, 0, 0x2e, 0x3b, 0xd6, 0x5b, 0x34, 0x90, 0xc9, 0xaf, 0xe4,
      0xe7, 0x2b, 0x54, 0xa0, 0x79, 0xa3, 0x5a, 0xb2, 0x57, 0xca, 0xa9]
    (by decide) (by decide) (Or.inl ⟨rfl, rfl⟩)
    (fun h => absurd (hmac_zero_record.symm.trans h) (by decide))

/-! ## `Put` -/

theorem Uint32ToBytes_bigEndian (i : UInt32) : Uint32ToBytes i = bigEndian 4 i.toNat := by
  rw [Uint32ToBytes_eq]
  simp only [bigEndian, List.range, List.range.loop, List.map]
  have h (n : Nat) : UInt8.ofNat (n % 256) = UInt8.ofNat n :=
    ofNat_eq_of_mod_eq (Nat.mod_mod _ _)
  simp only [h]
  norm_num

theorem Uint64ToBytes_bigEndian (i : UInt64) : Uint64ToBytes i = bigEndian 8 i.toNat := by
  rw [Uint64ToBytes_eq]
  simp only [bigEndian, List.range, List.range.loop, List.map]
  have h (n : Nat) : UInt8.ofNat (n % 256) = UInt8.ofNat n :=
    ofNat_eq_of_mod_eq (Nat.mod_mod _ _)
  simp only [h]
  norm_num

theorem EncodeToString_ne_nil (bs : List UInt8) (h : bs ≠ []) : EncodeToString bs ≠ [] := by
  match bs, h with
  | [_], _ => simp [EncodeToString]
  | [_, _], _ => simp [EncodeToString]
  | _ :: _ :: _ :: _, _ => simp [EncodeToString]

/-- C4. On a store built by `NewCookieStore` without cipher key, for a login name of
`L ≤ 255` bytes, `Put` returns a token whose URL-safe base64 decoding is the record
`expiry(4, big-endian) ‖ flags(8, big-endian) ‖ L ‖ loginName ‖ serializedData` followed by
the HMAC-SHA1 of that record under the digest key; `serializedData` is empty for nil `Data`
and the coder's encoding otherwise; the length is `13 + L + len serializedData + hashSize`. -/
theorem Put_record_layout {δ : Type} (hashKey : List UInt8) (enc : Option (SessionDataCoder δ))
    (alloc : Option (Unit → δ)) (cs : CookieStore δ)
    (hcs : NewCookieStore hashKey none enc alloc = (some cs, none))
    (s : Session δ) (hL : s.LoginName.length ≤ 255) (serializedData : List UInt8)
    (hser : (s.Data = none ∧ serializedData = [])
      ∨ ∃ d c, s.Data = some d ∧ cs.dataEnc = some c ∧ c.Encode d = .ok serializedData) :
    ∃ t, cs.Put (some s) = .ret (t, none)
      ∧ DecodeString t
          = .ok (specRecord s.Expiry s.Flags s.LoginName serializedData
              ++ hmacSum sha1New hashKey
                  (specRecord s.Expiry s.Flags s.LoginName serializedData))
      ∧ (UInt8.ofNat s.LoginName.length).toNat = s.LoginName.length
      ∧ (specRecord s.Expiry s.Flags s.LoginName serializedData
              ++ hmacSum sha1New hashKey
                  (specRecord s.Expiry s.Flags s.LoginName serializedData)).length
          = 13 + s.LoginName.length + serializedData.length + cs.hashSize := by
  have hf := NewCookieStore_fields hcs
  have hH := NewCookieStore_digest_length hcs
  have hk : cs.encKey = none := by rw [hf]
  have halgo : cs.hashAlgo = sha1New := by rw [hf]
  have hkey : cs.hashKey = hashKey := by rw [hf]
  have hsize : cs.hashSize = 20 := by rw [hf]; rfl
  have hput := Put_of_serData cs s serializedData hL (serData_of cs s serializedData hser)
  rw [hk] at hput
  simp only [] at hput
  rw [fillBuff_eq_record cs s serializedData hH, halgo, hkey] at hput
  have hrec : Uint32ToBytes s.Expiry ++ Uint64ToBytes s.Flags ++ [UInt8.ofNat s.LoginName.length]
      ++ s.LoginName ++ serializedData = specRecord s.Expiry s.Flags s.LoginName serializedData := by
    rw [Uint32ToBytes_bigEndian, Uint64ToBytes_bigEndian]; rfl
  have hlen := record_length s.Expiry s.Flags (UInt8.ofNat s.LoginName.length) s.LoginName
    serializedData
  rw [hrec] at hput hlen
  refine ⟨_, hput, DecodeString_EncodeToString _, ?_, ?_⟩
  · show s.LoginName.length % 256 = s.LoginName.length
    omega
  · rw [List.length_append, hlen, hmacSum_sha1_length, hsize]

/-- Witness of C4: the session of the test without payload, on the store with digest key
"1234" and no cipher key. -/
theorem Put_record_layout_witness :
    ∃ t, plainStore.Put (some { LoginName := bytesOf "johndoe", Flags := 0xFFFF }) = .ret (t, none)
      ∧ DecodeString t
          = .ok (specRecord 0 0xFFFF (bytesOf "johndoe") []
              ++ hmacSum sha1New (bytesOf "1234") (specRecord 0 0xFFFF (bytesOf "johndoe") []))
      ∧ (UInt8.ofNat (bytesOf "johndoe").length).toNat = (bytesOf "johndoe").length
      ∧ (specRecord 0 0xFFFF (bytesOf "johndoe") []
              ++ hmacSum sha1New (bytesOf "1234")
                  (specRecord 0 0xFFFF (bytesOf "johndoe") [])).length
          = 13 + (bytesOf "johndoe").length + ([] : List UInt8).length + plainStore.hashSize :=
  Put_record_layout (bytesOf "1234") none none plainStore rfl
    { LoginName := bytesOf "johndoe", Flags := 0xFFFF } (by decide) [] (Or.inl ⟨rfl, rfl⟩)

theorem fillBuff_length {δ : Type} (cs : CookieStore δ) (s : Session δ) (ser : List UInt8) :
    (cs.fillBuff s ser).length = 13 + s.LoginName.length + ser.length + cs.hashSize := by
  rw [fillBuff_eq, List.length_append, List.length_append, record_length, List.length_take,
    List.length_replicate]
  omega

/-- C5. `Put` rejects every login name longer than 255 bytes with an error and an empty
token, on every store; for a login name of at most 255 bytes whose `Data` is nil or is
encoded without error by the coder, `Put` on a store whose cipher key is absent or has 16 or
32 bytes returns a token, which is not empty, and no error. -/
theorem Put_login_bound {δ : Type} (cs : CookieStore δ) (s : Session δ) :
    (255 < s.LoginName.length → cs.Put (some s) = .ret ([], some .loginNameTooLong))
    ∧ (s.LoginName.length ≤ 255 →
        (cs.encKey = none ∨ ∃ k, cs.encKey = some k ∧ (k.length = 16 ∨ k.length = 32)) →
        (s.Data = none ∨ ∃ d c b, s.Data = some d ∧ cs.dataEnc = some c ∧ c.Encode d = .ok b) →
        ∃ t, t ≠ [] ∧ cs.Put (some s) = .ret (t, none)) := by
  constructor
  · intro h
    unfold CookieStore.Put
    simp only []
    rw [if_pos h]
  · intro hL hkey hdata
    obtain ⟨ser, hser⟩ : ∃ ser, (s.Data = none ∧ ser = [])
        ∨ ∃ d c, s.Data = some d ∧ cs.dataEnc = some c ∧ c.Encode d = .ok ser := by
      rcases hdata with h | ⟨d, c, b, h1, h2, h3⟩
      · exact ⟨[], Or.inl ⟨h, rfl⟩⟩
      · exact ⟨b, Or.inr ⟨d, c, h1, h2, h3⟩⟩
    have hput := Put_of_serData cs s ser hL (serData_of cs s ser hser)
    have hbuf : (cs.fillBuff s ser).length ≠ 0 := by
      rw [fillBuff_length]
      omega
    rcases hkey with hk | ⟨k, hk, hlen⟩
    · rw [hk] at hput
      exact ⟨_, EncodeToString_ne_nil _ (fun h0 => hbuf (by rw [h0]; rfl)), hput⟩
    · rw [hk] at hput
      simp only [EncryptAES_ok k _ hlen] at hput
      refine ⟨_, EncodeToString_ne_nil _ (fun h0 => hbuf ?_), hput⟩
      have := cfbXORKeyStream_length false (aesEncryptBlock k) (aesEncryptBlock_length k)
        (cs.fillBuff s ser).length commonIV (cs.fillBuff s ser) (Nat.le_refl _)
      rw [← this, h0]; rfl

set_option maxRecDepth 100000 in
/-- Witness of C5: a login name of 256 bytes is rejected and one of 255 bytes is accepted, on
the store of the test with its 16-byte cipher key. -/
theorem Put_login_bound_witness :
    testStore.Put (some { LoginName := List.replicate 256 97 }) = .ret ([], some .loginNameTooLong)
    ∧ ∃ t, t ≠ [] ∧ testStore.Put (some { LoginName := List.replicate 255 97 }) = .ret (t, none) :=
  ⟨(Put_login_bound testStore { LoginName := List.replicate 256 97 }).1 (by decide),
   (Put_login_bound testStore { LoginName := List.replicate 255 97 }).2 (by decide)
     (Or.inr ⟨bytesOf "1234567890abcdef", rfl, Or.inl (by decide)⟩) (Or.inl rfl)⟩

/-! ## Round trip -/

/-- What `Get` makes of the token `Put` returns, on any store whose digest has `hashSize`
bytes and whose cipher key, if any, has 16 or 32 bytes: it extracts from the record and its
digest. -/
theorem Get_Put {δ : Type} (cs : CookieStore δ) (s : Session δ) (ser : List UInt8)
    (hH : ∀ m, (hmacSum cs.hashAlgo cs.hashKey m).length = cs.hashSize)
    (hkey : cs.encKey = none ∨ ∃ k, cs.encKey = some k ∧ (k.length = 16 ∨ k.length = 32))
    (hL : s.LoginName.length ≤ 255) (hser : cs.serData s = .ret (.ok ser)) :
    ∃ t, cs.Put (some s) = .ret (t, none)
      ∧ cs.Get t = cs.extract (Uint32ToBytes s.Expiry ++ Uint64ToBytes s.Flags
          ++ [UInt8.ofNat s.LoginName.length] ++ s.LoginName ++ ser
          ++ hmacSum cs.hashAlgo cs.hashKey (Uint32ToBytes s.Expiry ++ Uint64ToBytes s.Flags
              ++ [UInt8.ofNat s.LoginName.length] ++ s.LoginName ++ ser)) := by
  have hput := Put_of_serData cs s ser hL hser
  rw [fillBuff_eq_record cs s ser hH] at hput
  have hR : 13 ≤ (Uint32ToBytes s.Expiry ++ Uint64ToBytes s.Flags
      ++ [UInt8.ofNat s.LoginName.length] ++ s.LoginName ++ ser).length := by
    rw [record_length]; omega
  rcases hkey with hk | ⟨k, hk, hlen⟩
  · rw [hk] at hput
    refine ⟨_, hput, Get_of_record cs _ _ hH hR ?_⟩
    rw [hk]
  · rw [hk] at hput
    simp only [EncryptAES_ok k _ hlen] at hput
    refine ⟨_, hput, Get_of_record cs _ _ hH hR ?_⟩
    rw [hk]
    exact EncryptAES_ok k _ hlen

/-- C1, amended. On a store built by `NewCookieStore` with a coder and a factory and a cipher
key that is absent or has 16 or 32 bytes, where decoding into the factory's target inverts
encoding: for every session whose login name has at most 242 bytes and whose `Data` is nil
or is encoded to at least one byte, `Put` returns a token and no error, and `Get` of that
token returns no error and a session with the same login name, flags, expiry and `Data`. -/
theorem Put_Get_roundtrip {δ : Type} (hashKey : List UInt8) (encKey : Option (List UInt8))
    (coder : SessionDataCoder δ) (alloc : Unit → δ) (cs : CookieStore δ)
    (hcs : NewCookieStore hashKey encKey (some coder) (some alloc) = (some cs, none))
    (hkey : encKey = none ∨ ∃ k, encKey = some k ∧ (k.length = 16 ∨ k.length = 32))
    (hinv : ∀ d, ∃ b, coder.Encode d = .ok b ∧ coder.Decode (alloc ()) b = .ok d)
    (s : Session δ) (hL : s.LoginName.length ≤ 242)
    (hdata : ∀ d, s.Data = some d → coder.Encode d ≠ .ok []) :
    ∃ t, cs.Put (some s) = .ret (t, none)
      ∧ ∃ s', cs.Get t = .ret (some s', none) ∧ s'.LoginName = s.LoginName
          ∧ s'.Flags = s.Flags ∧ s'.Expiry = s.Expiry ∧ s'.Data = s.Data := by
  have hf := NewCookieStore_fields hcs
  have hH := NewCookieStore_digest_length hcs
  have hk : cs.encKey = encKey := by rw [hf]
  have henc : cs.dataEnc = some coder := by rw [hf]
  have hal : cs.dataAllocator = some alloc := by rw [hf]
  cases hd : s.Data with
  | none =>
    have hser : cs.serData s = .ret (.ok []) := serData_of cs s [] (Or.inl ⟨hd, rfl⟩)
    obtain ⟨t, hput, hget⟩ := Get_Put cs s [] hH (hk ▸ hkey) (by omega) hser
    refine ⟨t, hput, ⟨.NEW, s.Expiry, [], s.LoginName, s.Flags, none⟩, ?_, rfl, rfl, rfl, rfl⟩
    rw [hget, extract_record cs s.Expiry s.Flags s.LoginName [] _ hL (hH _)]
    simp
  | some d =>
    obtain ⟨b, hb, hdecode⟩ := hinv d
    have hb0 : b ≠ [] := fun h0 => hdata d hd (h0 ▸ hb)
    have hser : cs.serData s = .ret (.ok b) := serData_of cs s b (Or.inr ⟨d, coder, hd, henc, hb⟩)
    obtain ⟨t, hput, hget⟩ := Get_Put cs s b hH (hk ▸ hkey) (by omega) hser
    refine ⟨t, hput, ⟨.NEW, s.Expiry, [], s.LoginName, s.Flags, some d⟩, ?_, rfl, rfl, rfl, rfl⟩
    rw [hget, extract_record cs s.Expiry s.Flags s.LoginName b _ hL (hH _)]
    rw [if_pos (List.length_pos.mpr hb0)]
    simp only [hal, henc, hdecode]

/-- Witness of C1: the session of the test (login name "johndoe", flags 0xFFFF, a payload) on
the store of the test. -/
theorem Put_Get_roundtrip_witness :
    ∃ t, testStore.Put (some testSession) = .ret (t, none)
      ∧ ∃ s', testStore.Get t = .ret (some s', none) ∧ s'.LoginName = bytesOf "johndoe"
          ∧ s'.Flags = 0xFFFF ∧ s'.Expiry = 1000 ∧ s'.Data = some (bytesOf "John Doe") :=
  Put_Get_roundtrip (bytesOf "1234") (some (bytesOf "1234567890abcdef")) rawCoder (fun _ => [])
    testStore rfl (Or.inr ⟨_, rfl, Or.inl (by decide)⟩) (fun d => ⟨d, rfl, rfl⟩)
    testSession (by decide) (by decide)

/-- A login name of 243 to 255 bytes, which `Put` accepts, makes `Get` panic on the token of
`Put`: the upper bound `13+loginLen` of the slice is computed in `uint8` and wraps around to
a value below 13. -/
theorem Get_Put_panic {δ : Type} (cs : CookieStore δ) (s : Session δ) (ser : List UInt8)
    (hH : ∀ m, (hmacSum cs.hashAlgo cs.hashKey m).length = cs.hashSize)
    (hkey : cs.encKey = none ∨ ∃ k, cs.encKey = some k ∧ (k.length = 16 ∨ k.length = 32))
    (hL : 243 ≤ s.LoginName.length ∧ s.LoginName.length ≤ 255)
    (hser : cs.serData s = .ret (.ok ser)) :
    ∃ t, cs.Put (some s) = .ret (t, none) ∧ cs.Get t = .panic := by
  obtain ⟨t, hput, hget⟩ := Get_Put cs s ser hH hkey hL.2 hser
  refine ⟨t, hput, ?_⟩
  rw [hget]
  have e4 : (Uint32ToBytes s.Expiry).length = 4 := rfl
  have e8 : (Uint64ToBytes s.Flags).length = 8 := rfl
  generalize Uint32ToBytes s.Expiry = eb at e4 ⊢
  generalize Uint64ToBytes s.Flags = fb at e8 ⊢
  generalize hmacSum cs.hashAlgo cs.hashKey _ = mac
  have g12 : (eb ++ fb ++ [UInt8.ofNat s.LoginName.length] ++ s.LoginName ++ ser ++ mac).getD 12 0
      = UInt8.ofNat s.LoginName.length := by
    have : (eb ++ fb ++ [UInt8.ofNat s.LoginName.length] ++ s.LoginName ++ ser ++ mac)
        = (eb ++ fb) ++ (UInt8.ofNat s.LoginName.length :: (s.LoginName ++ ser ++ mac)) := by
      simp only [List.append_assoc, List.singleton_append, List.cons_append, List.nil_append]
    rw [this]
    have h12 : (eb ++ fb).length = 12 := by simp [e4, e8]
    rw [List.getD_eq_getElem?_getD, List.getElem?_append_right (by omega), h12]
    simp
  have h13 : ((13 : UInt8) + UInt8.ofNat s.LoginName.length).toNat < 13 := by
    rw [u8_thirteen_add]; omega
  unfold CookieStore.extract
  simp only [g12]
  have hs : slice (eb ++ fb ++ [UInt8.ofNat s.LoginName.length] ++ s.LoginName ++ ser ++ mac) 13
      ((13 : UInt8) + UInt8.ofNat s.LoginName.length).toNat = none := by
    unfold slice
    rw [if_neg (by omega)]
  simp only [hs]

set_option maxRecDepth 1000000 in
/-- Counterexample to C1 as stated, on stores `NewCookieStore` returns without cipher key.
With the raw coder, whose `Decode` inverts its `Encode`, a session whose `Data` is the empty
byte string is put without error, and `Get` of the token returns a session whose `Data` is
nil. With a login name of 243 bytes `Put` returns a token and `Get` of that token panics. -/
theorem Put_Get_roundtrip_counterexample :
    NewCookieStore (bytesOf "1234") none (some rawCoder) (some fun _ => []) = (some rawStore, none)
    ∧ rawStore.Put (some { Data := some [] })
        = .ret (bytesOf "AAAAAAAAAAAAAAAAAC471ls0kMmv5OcrVKB5o1qyV8qo", none)
    ∧ rawStore.Get (bytesOf "AAAAAAAAAAAAAAAAAC471ls0kMmv5OcrVKB5o1qyV8qo")
        = .ret (some { Data := none }, none)
    ∧ rawStore.Put (some { LoginName := List.replicate 243 97 })
        = .ret (EncodeToString (rawStore.fillBuff { LoginName := List.replicate 243 97 } []), none)
    ∧ rawStore.Get (EncodeToString (rawStore.fillBuff { LoginName := List.replicate 243 97 } []))
        = .panic := by
  have hp : rawStore.Put (some { LoginName := List.replicate 243 97 })
      = .ret (EncodeToString (rawStore.fillBuff { LoginName := List.replicate 243 97 } []), none) :=
    Put_of_serData rawStore { LoginName := List.replicate 243 97 } [] (by decide) rfl
  have hp0 : rawStore.Put (some { Data := some [] })
      = .ret (bytesOf "AAAAAAAAAAAAAAAAAC471ls0kMmv5OcrVKB5o1qyV8qo", none) :=
    (Put_of_digest rawStore { Data := some [] } [] _ _ rfl (by decide) rfl rfl hmac_zero_record
      rfl).trans (by decide)
  have hg0 : rawStore.Get (bytesOf "AAAAAAAAAAAAAAAAAC471ls0kMmv5OcrVKB5o1qyV8qo")
      = .ret (some { Data := none }, none) :=
    (Get_of_matching_digest rawStore _
      [0, 0, 0, 0, 0, 0, 0, 0, 0, 0, 0, 0, 0, 0x2e, 0x3b, 0xd6, 0x5b, 0x34, 0x90, 0xc9, 0xaf,
        0xe4, 0xe7, 0x2b, 0x54, 0xa0, 0x79, 0xa3, 0x5a, 0xb2, 0x57, 0xca, 0xa8]
      rfl (by decide) (by decide) hmac_zero_record).trans (by decide)
  refine ⟨rfl, hp0, hg0, hp, ?_⟩
  obtain ⟨t, hput, hget⟩ := Get_Put_panic rawStore { LoginName := List.replicate 243 97 } []
    (fun m => hmacSum_sha1_length _ m) (Or.inl rfl) (by decide) rfl
  rw [hp] at hput
  simp only [Outcome.ret.injEq, Prod.mk.injEq, and_true] at hput
  rw [← hput] at hget
  exact hget

/-! ## Decoding of an authenticated record -/

set_option maxRecDepth 1000000 in
/-- C9, at the failing input. On the store `NewCookieStore([]byte("1234"), nil, nil, nil)`
the session with a login name of 255 bytes is put without error; the record of the token has
a matching digest and its length byte is 255, which fits before the digest; `Get` of the
token panics instead of returning the login name. -/
theorem Get_authenticated_record_panic :
    NewCookieStore (bytesOf "1234") none none none = (some plainStore, none)
    ∧ plainStore.Put (some { LoginName := List.replicate 255 97 })
        = .ret (EncodeToString (plainStore.fillBuff { LoginName := List.replicate 255 97 } []),
            none)
    ∧ (plainStore.fillBuff { LoginName := List.replicate 255 97 } []).getD 12 0 = 255
    ∧ 13 + 255 ≤ (plainStore.fillBuff { LoginName := List.replicate 255 97 } []).length
        - plainStore.hashSize
    ∧ plainStore.Get
          (EncodeToString (plainStore.fillBuff { LoginName := List.replicate 255 97 } []))
        = .panic := by
  have hp : plainStore.Put (some { LoginName := List.replicate 255 97 })
      = .ret (EncodeToString (plainStore.fillBuff { LoginName := List.replicate 255 97 } []),
          none) :=
    Put_of_serData plainStore { LoginName := List.replicate 255 97 } [] (by decide) rfl
  refine ⟨rfl, hp, ?_, ?_, ?_⟩
  · rw [fillBuff_eq]
    rfl
  · rw [fillBuff_length]
    decide
  · obtain ⟨t, hput, hget⟩ := Get_Put_panic plainStore { LoginName := List.replicate 255 97 } []
      (fun m => hmacSum_sha1_length _ m) (Or.inl rfl) (by decide) rfl
    rw [hp] at hput
    simp only [Outcome.ret.injEq, Prod.mk.injEq, and_true] at hput
    rw [← hput] at hget
    exact hget

/-! ## `Start` -/

/-- C10, as the code behaves. With a store built by `NewCookieStore` installed by `Init`, a
request that carries no cookie of the configured name, or carries it with an empty value,
makes `Start` return a nil session and the length error of `Get`: the empty value is handed
to `Get`, which decodes it to zero bytes. -/
theorem Start_without_cookie {δ : Type} (hashKey : List UInt8) (encKey : Option (List UInt8))
    (enc : Option (SessionDataCoder δ)) (alloc : Option (Unit → δ)) (cs : CookieStore δ)
    (hcs : NewCookieStore hashKey encKey enc alloc = (some cs, none))
    (cookieName domain path : String) (maxAge : Int) (secure : Bool) (now : Int) (r : Request)
    (hr : r.Cookie cookieName = none ∨ ∃ c, r.Cookie cookieName = some c ∧ c.Value = []) :
    Start (Init cs.toProvider cookieName domain path maxAge secure) now r
      = .ret (none, some .invalidCookieLength) := by
  have hget : cs.Get [] = .ret (none, some .invalidCookieLength) :=
    Get_of_short cs [] [] rfl (by rw [NewCookieStore_hashSize hcs]; decide)
  unfold Start
  simp only [Init, CookieStore.toProvider]
  rcases hr with h | ⟨c, h, hv⟩
  · simp only [h, hget]
  · simp only [h, hv, hget]

/-- Witness of C10: the first step of `TestCookieSession`, an empty request on the store of
the test installed as "mysession". -/
theorem Start_without_cookie_witness :
    Start (Init testStore.toProvider "mysession" "localhost" "/" 2 false) 0 { Cookies := [] }
      = .ret (none, some .invalidCookieLength) :=
  Start_without_cookie (bytesOf "1234") (some (bytesOf "1234567890abcdef")) (some rawCoder)
    (some fun _ => []) testStore rfl "mysession" "localhost" "/" 2 false 0 { Cookies := [] }
    (Or.inl rfl)

/-! ## The saved session of the lifecycle examples -/

set_option maxRecDepth 1000000 in
/-- HMAC-SHA1 under the key "1234" of the record of `savedSession`. -/
theorem hmac_saved_record :
    hmacSum sha1New (bytesOf "1234")
        [0, 0, 3, 234, 0, 0, 0, 0, 0, 0, 255, 255, 7, 106, 111, 104, 110, 100, 111, 101]
      = [142, 23, 111, 119, 130, 86, 15, 81, 247, 168, 228, 173, 107, 121, 247, 111, 218, 79, 134,
          82] := by
  decide

/-- The record of `savedSession`. -/
theorem savedSession_record :
    Uint32ToBytes savedSession.Expiry ++ Uint64ToBytes savedSession.Flags
        ++ [UInt8.ofNat savedSession.LoginName.length] ++ savedSession.LoginName ++ []
      = [0, 0, 3, 234, 0, 0, 0, 0, 0, 0, 255, 255, 7, 106, 111, 104, 110, 100, 111, 101] := by
  decide

set_option maxRecDepth 1000000 in
/-- The token of `savedSession`, whatever its state: the state is not part of the record. -/
theorem Put_plainStore_saved (st : SessionState) :
    plainStore.Put (some { savedSession with State := st }) = .ret (savedToken, none) :=
  (Put_of_digest plainStore { savedSession with State := st } [] _ _ rfl
    (Nat.le_of_ble_eq_true rfl) rfl savedSession_record hmac_saved_record rfl).trans (by decide)

set_option maxRecDepth 1000000 in
/-- What `Get` returns for the token of `savedSession`. -/
theorem Get_plainStore_saved :
    plainStore.Get savedToken
      = .ret (some ⟨.NEW, 1002, [], bytesOf "johndoe", 0xFFFF, none⟩, none) :=
  (Get_of_matching_digest plainStore _
    [0, 0, 3, 234, 0, 0, 0, 0, 0, 0, 255, 255, 7, 106, 111, 104, 110, 100, 111, 101,
      142, 23, 111, 119, 130, 86, 15, 81, 247, 168, 228, 173, 107, 121, 247, 111, 218, 79, 134, 82]
    rfl (by decide) (by decide) hmac_saved_record).trans (by decide)

/-- The cookie store as a provider hands the session back as it received it. -/
theorem toProvider_Put {δ : Type} (cs : CookieStore δ) (s : Session δ)
    (r : List UInt8 × Option Error) (h : cs.Put (some s) = .ret r) :
    cs.toProvider.Put s = .ret (s, r) := by
  simp only [CookieStore.toProvider, h]

theorem toProvider_Put_inv {δ : Type} (cs : CookieStore δ) (s s2 : Session δ)
    (r : List UInt8 × Option Error) (h : cs.toProvider.Put s = .ret (s2, r)) :
    s2 = s ∧ cs.Put (some s) = .ret r := by
  simp only [CookieStore.toProvider] at h
  split at h
  · cases h
  · rename_i r2 h2
    cases h
    exact ⟨rfl, h2⟩

/-- The fields `extract` never assigns keep their zero values. -/
theorem extract_State_Token {δ : Type} (cs : CookieStore δ) (rawData : List UInt8)
    (g : Session δ) (e : Option Error) (h : cs.extract rawData = .ret (some g, e)) :
    g.State = .NEW ∧ g.Token = [] := by
  unfold CookieStore.extract at h
  simp only [] at h
  split at h
  · cases h
  · split at h
    · cases h
    · split at h
      · split at h
        · cases h
        · split at h
          · cases h
          · split at h
            · cases h
            · cases h
              exact ⟨rfl, rfl⟩
      · cases h
        exact ⟨rfl, rfl⟩

/-- A session `Get` returns without error is in state NEW and has an empty `Token`. -/
theorem Get_State_Token {δ : Type} (cs : CookieStore δ) (cookieVal : List UInt8)
    (g : Session δ) (h : cs.Get cookieVal = .ret (some g, none)) :
    g.State = .NEW ∧ g.Token = [] := by
  unfold CookieStore.Get at h
  split at h
  · cases h
  · simp only [] at h
    split at h
    · cases h
    · split at h
      · cases h
      · split at h
        · cases h
        · exact extract_State_Token cs _ g none h

/-! ## `Start` of the inner package on an accepted token -/

/-- What `Start` of `src/session/session.go` returns, with a cookie store installed by `Init`,
on a request whose cookie carries a non-empty value `Get` accepts: the session in state
EXPIRED when its expiry is before the current time, in state VALID otherwise. -/
theorem Inner.Start_of_token {δ : Type} (cs : CookieStore δ) (cookieName domain path : String)
    (maxAge : Int) (secure : Bool) (now : Int) (r : Request) (c : Cookie) (g : Session δ)
    (hr : r.Cookie cookieName = some c) (hv : ¬ c.Value = [])
    (hget : cs.Get c.Value = .ret (some g, none)) :
    Inner.Start (Init cs.toProvider cookieName domain path maxAge secure) now r
      = .ret (some { g with State := if g.Expiry < unixUint32 now then .EXPIRED else .VALID },
          none) := by
  unfold Inner.Start
  simp only [Init, CookieStore.toProvider, hr, if_neg hv, hget]
  by_cases h : g.Expiry < unixUint32 now
  · simp only [if_pos h]
  · simp only [if_neg h]

/-! ## Tokens that `Put` returns -/

/-- The cipher key of a store `NewCookieStore` returns has 0, 16 or 32 bytes. -/
theorem NewCookieStore_key_length {δ : Type} {hashKey : List UInt8}
    {encKey : Option (List UInt8)} {enc : Option (SessionDataCoder δ)} {alloc : Option (Unit → δ)}
    {cs : CookieStore δ} (h : NewCookieStore hashKey encKey enc alloc = (some cs, none)) :
    lenOf cs.encKey = 0 ∨ lenOf cs.encKey = 16 ∨ lenOf cs.encKey = 32 := by
  have hf := NewCookieStore_fields h
  have hk : cs.encKey = encKey := by rw [hf]
  rw [hk]
  simp only [NewCookieStore] at h
  by_cases h1 : lenOf encKey ≠ 0 ∧ lenOf encKey ≠ 16 ∧ lenOf encKey ≠ 32
  · rw [if_pos h1] at h
    simp at h
  · omega

/-- What a `Put` that returns a token and no error has done: the login name has at most 255
bytes, the payload was serialised, and the token is the base64 of the buffer, encrypted when
the store has a cipher key. -/
theorem Put_ok_cases {δ : Type} (cs : CookieStore δ) (s : Session δ) (t : List UInt8)
    (hput : cs.Put (some s) = .ret (t, none)) :
    s.LoginName.length ≤ 255
      ∧ ∃ ser payload, cs.serData s = .ret (.ok ser) ∧ t = EncodeToString payload
          ∧ ((cs.encKey = none ∧ payload = cs.fillBuff s ser)
            ∨ ∃ k, cs.encKey = some k ∧ EncryptAES k (cs.fillBuff s ser) = .ok payload) := by
  unfold CookieStore.Put at hput
  simp only [] at hput
  split at hput
  · simp at hput
  · rename_i hL
    refine ⟨by omega, ?_⟩
    split at hput
    · simp at hput
    · simp at hput
    · rename_i ser hser
      split at hput
      · rename_i k hk
        split at hput
        · simp at hput
        · rename_i buff hbuff
          simp only [Outcome.ret.injEq, Prod.mk.injEq, and_true] at hput
          exact ⟨ser, buff, hser, hput.symm, Or.inr ⟨k, hk, hbuff⟩⟩
      · rename_i hk
        simp only [Outcome.ret.injEq, Prod.mk.injEq, and_true] at hput
        exact ⟨ser, _, hser, hput.symm, Or.inl ⟨hk, rfl⟩⟩

/-- A key `EncryptAES` accepts has 16, 24 or 32 bytes. -/
theorem EncryptAES_key_length (key data out : List UInt8) (h : EncryptAES key data = .ok out) :
    key.length = 16 ∨ key.length = 24 ∨ key.length = 32 := by
  unfold EncryptAES aesNewCipher at h
  by_cases hk : key.length = 16 ∨ key.length = 24 ∨ key.length = 32
  · exact hk
  · rw [if_neg hk] at h
    simp at h

/-- On a store `NewCookieStore` returns, a `Put` that returns a token shows that the cipher key
is absent or has 16 or 32 bytes. -/
theorem Put_ok_key {δ : Type} {hashKey : List UInt8} {encKey : Option (List UInt8)}
    {enc : Option (SessionDataCoder δ)} {alloc : Option (Unit → δ)} {cs : CookieStore δ}
    (hcs : NewCookieStore hashKey encKey enc alloc = (some cs, none)) (s : Session δ)
    (t : List UInt8) (hput : cs.Put (some s) = .ret (t, none)) :
    cs.encKey = none ∨ ∃ k, cs.encKey = some k ∧ (k.length = 16 ∨ k.length = 32) := by
  obtain ⟨_, ser, payload, _, _, hp⟩ := Put_ok_cases cs s t hput
  rcases hp with ⟨hk, _⟩ | ⟨k, hk, he⟩
  · exact Or.inl hk
  · have h1 := NewCookieStore_key_length hcs
    rw [hk] at h1
    simp only [lenOf] at h1
    have h2 := EncryptAES_key_length k _ _ he
    exact Or.inr ⟨k, hk, by omega⟩

/-! ## Tampering -/

/-- What `Start` of `src/session/session.go` does when `Get` panics on the cookie value. -/
theorem Inner.Start_of_panic {δ : Type} (cs : CookieStore δ) (cookieName domain path : String)
    (maxAge : Int) (secure : Bool) (now : Int) (r : Request) (c : Cookie)
    (hr : r.Cookie cookieName = some c) (hget : cs.Get c.Value = .panic) :
    Inner.Start (Init cs.toProvider cookieName domain path maxAge secure) now r = .panic := by
  have hv : ¬ c.Value = [] := by
    intro h0
    rw [h0, Get_of_short cs [] [] rfl (by simp)] at hget
    cases hget
  unfold Inner.Start
  simp only [Init, CookieStore.toProvider, hr, if_neg hv, hget]

/-- The comparison `Start` makes in `uint32` is the comparison of the expiry with the current
time, for a current time that `uint32` holds. -/
theorem lt_unixUint32 (e : UInt32) (now : Int) (h0 : 0 ≤ now) (h1 : now < 4294967296) :
    e < unixUint32 now ↔ (e.toNat : Int) < now := by
  have hn : (unixUint32 now).toNat = now.toNat := by
    unfold unixUint32
    have : now % 2 ^ 32 = now := Int.emod_eq_of_lt h0 (by omega)
    rw [this]
    show now.toNat % 4294967296 = now.toNat
    omega
  have hlt : e < unixUint32 now ↔ e.toNat < (unixUint32 now).toNat := Iff.rfl
  rw [hlt, hn]
  omega

/-- C11, as the code behaves, for the `Start` that can hold the cookie store, the one of
`src/session/session.go`. A store built by `NewCookieStore` is installed by `Init`, `Put`
returns the token `t` for the session `s`, and the request carries `t` in the cookie of the
configured name. When the login name of `s` has 243 to 255 bytes, `Start` panics. When it has
at most 242 bytes and the payload is empty or is decoded without error, `Start` returns no
error and a session with the expiry, login name and flags of `s`, in state EXPIRED when the
expiry is before the current time as `uint32` and in state VALID otherwise. -/
theorem Start_expiry_transition {δ : Type} (hashKey : List UInt8)
    (encKey : Option (List UInt8)) (enc : Option (SessionDataCoder δ))
    (alloc : Option (Unit → δ)) (cs : CookieStore δ)
    (hcs : NewCookieStore hashKey encKey enc alloc = (some cs, none))
    (s : Session δ) (ser t : List UInt8) (hser : cs.serData s = .ret (.ok ser))
    (hput : cs.Put (some s) = .ret (t, none))
    (cookieName domain path : String) (maxAge : Int) (secure : Bool) (now : Int) (r : Request)
    (c : Cookie) (hr : r.Cookie cookieName = some c) (hc : c.Value = t) :
    (243 ≤ s.LoginName.length →
      Inner.Start (Init cs.toProvider cookieName domain path maxAge secure) now r = .panic)
    ∧ (s.LoginName.length ≤ 242 →
      (ser = [] ∨ ∃ a e d, cs.dataAllocator = some a ∧ cs.dataEnc = some e
        ∧ e.Decode (a ()) ser = .ok d) →
      ∃ g, Inner.Start (Init cs.toProvider cookieName domain path maxAge secure) now r
          = .ret (some g, none)
        ∧ g.State = (if s.Expiry < unixUint32 now then .EXPIRED else .VALID)
        ∧ g.Expiry = s.Expiry ∧ g.LoginName = s.LoginName ∧ g.Flags = s.Flags)
    ∧ (0 ≤ now → now < 4294967296 →
      (s.Expiry < unixUint32 now ↔ (s.Expiry.toNat : Int) < now)) := by
  have hH := NewCookieStore_digest_length hcs
  have hkey := Put_ok_key hcs s t hput
  have hL := (Put_ok_cases cs s t hput).1
  refine ⟨?_, ?_, lt_unixUint32 s.Expiry now⟩
  · intro h243
    obtain ⟨t0, hput0, hget⟩ := Get_Put_panic cs s ser hH hkey ⟨h243, hL⟩ hser
    rw [hput] at hput0
    simp only [Outcome.ret.injEq, Prod.mk.injEq, and_true] at hput0
    rw [← hput0, ← hc] at hget
    exact Inner.Start_of_panic cs cookieName domain path maxAge secure now r c hr hget
  · intro h242 hdec
    obtain ⟨t0, hput0, hget⟩ := Get_Put cs s ser hH hkey hL hser
    rw [hput] at hput0
    simp only [Outcome.ret.injEq, Prod.mk.injEq, and_true] at hput0
    rw [← hput0, ← hc, extract_record cs s.Expiry s.Flags s.LoginName ser _ h242 (hH _)] at hget
    have hv : ¬ c.Value = [] := by
      intro h0
      rw [h0, Get_of_short cs [] [] rfl (by simp)] at hget
      rcases hdec with hs0 | ⟨a, e, d, ha, he, hd⟩
      · rw [hs0] at hget
        simp at hget
      · simp only [ha, he, hd] at hget
        split at hget <;> simp at hget
    rcases hdec with hs0 | ⟨a, e, d, ha, he, hd⟩
    · rw [hs0] at hget
      simp only [List.length_nil, gt_iff_lt, Nat.lt_irrefl, if_false] at hget
      exact ⟨_, Inner.Start_of_token cs cookieName domain path maxAge secure now r c _ hr hv hget,
        rfl, rfl, rfl, rfl⟩
    · simp only [ha, he, hd] at hget
      by_cases hpos : ser.length > 0
      · rw [if_pos hpos] at hget
        exact ⟨_, Inner.Start_of_token cs cookieName domain path maxAge secure now r c _ hr hv
          hget, rfl, rfl, rfl, rfl⟩
      · rw [if_neg hpos] at hget
        exact ⟨_, Inner.Start_of_token cs cookieName domain path maxAge secure now r c _ hr hv
          hget, rfl, rfl, rfl, rfl⟩

set_option maxRecDepth 1000000 in
/-- C11 at a failing input and at two inputs of the test: on the store
`NewCookieStore([]byte("1234"), nil, nil, nil)` installed as "mysession", the token `Put`
returns for a login name of 250 bytes makes `Start` of `src/session/session.go` panic; the
token of the session of "johndoe" with expiry 1002 comes back in state EXPIRED at time 2000
and in state VALID at time 1000. -/
theorem Start_expiry_transition_witness :
    plainStore.Put (some ⟨.NEW, 0, [], List.replicate 250 97, 0, none⟩)
        = .ret (EncodeToString
            (plainStore.fillBuff ⟨.NEW, 0, [], List.replicate 250 97, 0, none⟩ []), none)
    ∧ Inner.Start testCookie 1000 longLoginRequest = .panic
    ∧ plainStore.Put (some savedSession) = .ret (savedToken, none)
    ∧ (∃ g, Inner.Start testCookie 2000 savedRequest = .ret (some g, none)
        ∧ g.State = .EXPIRED
        ∧ g.Expiry = 1002 ∧ g.LoginName = bytesOf "johndoe" ∧ g.Flags = 0xFFFF)
    ∧ (∃ g, Inner.Start testCookie 1000 savedRequest = .ret (some g, none)
        ∧ g.State = .VALID
        ∧ g.Expiry = 1002 ∧ g.LoginName = bytesOf "johndoe" ∧ g.Flags = 0xFFFF) := by
  have hp : plainStore.Put (some ⟨.NEW, 0, [], List.replicate 250 97, 0, none⟩)
      = .ret (EncodeToString
          (plainStore.fillBuff ⟨.NEW, 0, [], List.replicate 250 97, 0, none⟩ []), none) :=
    Put_of_serData plainStore ⟨.NEW, 0, [], List.replicate 250 97, 0, none⟩ [] (by decide) rfl
  have hs : plainStore.Put (some savedSession) = .ret (savedToken, none) :=
    Put_plainStore_saved .VALID
  have h1 := (Start_expiry_transition (bytesOf "1234") none none none plainStore rfl
    ⟨.NEW, 0, [], List.replicate 250 97, 0, none⟩ [] _ rfl hp "mysession" "localhost" "/" 2
    false 1000 longLoginRequest
    { Name := "mysession",
      Value := EncodeToString
        (plainStore.fillBuff ⟨.NEW, 0, [], List.replicate 250 97, 0, none⟩ []) }
    rfl rfl).1 (by decide)
  have h2 := (Start_expiry_transition (bytesOf "1234") none none none plainStore rfl
    savedSession [] savedToken rfl hs "mysession" "localhost" "/" 2 false 2000 savedRequest
    { Name := "mysession", Value := savedToken } rfl rfl).2.1 (by decide) (Or.inl rfl)
  have h3 := (Start_expiry_transition (bytesOf "1234") none none none plainStore rfl
    savedSession [] savedToken rfl hs "mysession" "localhost" "/" 2 false 1000 savedRequest
    { Name := "mysession", Value := savedToken } rfl rfl).2.1 (by decide) (Or.inl rfl)
  rw [if_pos (by decide)] at h2
  rw [if_neg (by decide)] at h3
  exact ⟨hp, h1, hs, h2, h3⟩

/-! ## The token field -/

set_option maxRecDepth 1000000 in
/-- Counterexample to C12 as stated. `Put` of the session of "johndoe" returns a token that
is not empty and leaves the `Token` of the session empty; `Get` of that token returns a
session whose `Token` is empty. -/
theorem Token_field_counterexample :
    plainStore.toProvider.Put savedSession = .ret (savedSession, (savedToken, none))
    ∧ savedSession.Token = []
    ∧ savedToken ≠ []
    ∧ plainStore.Get savedToken
        = .ret (some ⟨.NEW, 1002, [], bytesOf "johndoe", 0xFFFF, none⟩, none)
    ∧ (⟨.NEW, 1002, [], bytesOf "johndoe", 0xFFFF, none⟩ : Session Unit).Token = [] :=
  ⟨toProvider_Put plainStore savedSession _ (Put_plainStore_saved .VALID), rfl, by decide,
    Get_plainStore_saved, rfl⟩

/-- C12, amended. The cookie store does not use `Session.Token`: a `Put` that returns leaves
the `Token` of the session, and every other field, as it was, and a session `Get` returns
without error has an empty `Token`. -/
theorem Token_field {δ : Type} (cs : CookieStore δ) (s : Session δ) (cookieVal : List UInt8) :
    (∀ s2 t e, cs.toProvider.Put s = .ret (s2, (t, e)) → s2.Token = s.Token ∧ s2 = s)
    ∧ (∀ g, cs.Get cookieVal = .ret (some g, none) → g.Token = []) := by
  constructor
  · intro s2 t e h
    have h2 := (toProvider_Put_inv cs s s2 (t, e) h).1
    exact ⟨by rw [h2], h2⟩
  · intro g h
    exact (Get_State_Token cs cookieVal g h).2

set_option maxRecDepth 1000000 in
/-- Witness of C12: the session of "johndoe" and its token on the store of the test without
cipher key. -/
theorem Token_field_witness :
    (savedSession.Token = savedSession.Token ∧ savedSession = savedSession)
    ∧ (⟨.NEW, 1002, [], bytesOf "johndoe", 0xFFFF, none⟩ : Session Unit).Token = [] :=
  ⟨(Token_field plainStore savedSession savedToken).1 savedSession savedToken none
      (toProvider_Put plainStore savedSession _ (Put_plainStore_saved .VALID)),
    (Token_field plainStore savedSession savedToken).2 _ Get_plainStore_saved⟩

/-! ## `Save` and `Destroy` -/

theorem unixOf_add_seconds (nano m : Int) : unixOf (nano + 1000000000 * m) = unixOf nano + m := by
  unfold unixOf
  exact Int.add_mul_ediv_left nano m (by decide)

/-- A value in the range of `int64` is not changed by the wrap-around. -/
theorem wrapInt64_of_bounds (x : Int) (h : -2^63 ≤ x ∧ x < 2^63) : wrapInt64 x = x := by
  unfold wrapInt64
  rw [Int.emod_eq_of_lt (by omega) (by omega)]
  omega

/-- The duration `Init` stores for a max-age of at most 9223372036 seconds either way. -/
theorem Init_MaxAge {δ : Type} (provider : Provider δ) (cookieName domain path : String)
    (m : Int) (secure : Bool) (hm : -9223372036 ≤ m ∧ m ≤ 9223372036) :
    (Init provider cookieName domain path m secure).MaxAge = 1000000000 * m :=
  wrapInt64_of_bounds _ (by constructor <;> omega)

/-- What `Save` does with a session in state NEW when `Put` succeeds and leaves the session
as it is, for any value of the package variable: `Put` is called twice on the updated
session, the first result is dropped. -/
theorem Save_of_new_cookie {δ : Type} (cookie : CookieOptions δ) (nowNano : Int)
    (s : Session δ) (tv : List UInt8) (hs : s.State = .NEW)
    (hput : cookie.Store.Put
        { s with State := .VALID, Expiry := unixUint32 (unixOf (nowNano + cookie.MaxAge)) }
      = .ret ({ s with State := .VALID,
                       Expiry := unixUint32 (unixOf (nowNano + cookie.MaxAge)) }, (tv, none))) :
    Save cookie nowNano s
      = .ret ⟨{ s with State := .VALID,
                       Expiry := unixUint32 (unixOf (nowNano + cookie.MaxAge)) },
          [newCookie cookie tv 0],
          [.Put { s with State := .VALID,
                         Expiry := unixUint32 (unixOf (nowNano + cookie.MaxAge)) },
           .Put { s with State := .VALID,
                         Expiry := unixUint32 (unixOf (nowNano + cookie.MaxAge)) }],
          none⟩ := by
  unfold Save
  rw [if_pos hs]
  simp only [hput, Save.finish, List.singleton_append]

/-- What `Save` does with a session in state NEW under the package variable of `Init`, for a
max-age whose nanoseconds fit `int64`. -/
theorem Save_of_new {δ : Type} (provider : Provider δ) (cookieName domain path : String)
    (m : Int) (secure : Bool) (nowNano : Int) (s : Session δ) (tv : List UInt8)
    (hm : -9223372036 ≤ m ∧ m ≤ 9223372036) (hs : s.State = .NEW)
    (hput : provider.Put { s with State := .VALID, Expiry := unixUint32 (unixOf nowNano + m) }
      = .ret ({ s with State := .VALID, Expiry := unixUint32 (unixOf nowNano + m) },
          (tv, none))) :
    Save (Init provider cookieName domain path m secure) nowNano s
      = .ret ⟨{ s with State := .VALID, Expiry := unixUint32 (unixOf nowNano + m) },
          [newCookie (Init provider cookieName domain path m secure) tv 0],
          [.Put { s with State := .VALID, Expiry := unixUint32 (unixOf nowNano + m) },
           .Put { s with State := .VALID, Expiry := unixUint32 (unixOf nowNano + m) }],
          none⟩ := by
  have he : unixOf (nowNano + (Init provider cookieName domain path m secure).MaxAge)
      = unixOf nowNano + m := by
    rw [Init_MaxAge provider cookieName domain path m secure hm, unixOf_add_seconds]
  have h := Save_of_new_cookie (Init provider cookieName domain path m secure) nowNano s tv hs
  rw [he] at h
  exact h hput

/-- What `Save` does with a session in state EXPIRED when `Delete` and `Put` return. -/
theorem Save_of_expired {δ : Type} (cookie : CookieOptions δ) (nowNano : Int) (s : Session δ)
    (derr err : Option Error) (tv : List UInt8) (hs : s.State = .EXPIRED)
    (hdel : cookie.Store.Delete s.Token = .ret derr)
    (hput : cookie.Store.Put { s with Expiry := unixUint32 (unixOf nowNano) }
      = .ret ({ s with Expiry := unixUint32 (unixOf nowNano) }, (tv, err))) :
    Save cookie nowNano s
      = .ret ⟨{ s with Expiry := unixUint32 (unixOf nowNano) },
          (match err with
            | none => [newCookie cookie tv (-1)]
            | some _ => []),
          [.Delete s.Token, .Put { s with Expiry := unixUint32 (unixOf nowNano) }], err⟩ := by
  have hne : ¬ s.State = .NEW := by rw [hs]; decide
  unfold Save
  rw [if_neg hne, if_pos hs]
  cases err <;> simp only [hdel, hput, Save.finish, List.singleton_append]

/-- What `Save` does with a session in state VALID when `Put` returns. -/
theorem Save_of_valid {δ : Type} (cookie : CookieOptions δ) (nowNano : Int) (s : Session δ)
    (err : Option Error) (tv : List UInt8) (hs : s.State = .VALID)
    (hput : cookie.Store.Put s = .ret (s, (tv, err))) :
    Save cookie nowNano s
      = .ret ⟨s, (match err with
            | none => [newCookie cookie tv 0]
            | some _ => []), [.Put s], err⟩ := by
  have hne : ¬ s.State = .NEW := by rw [hs]; decide
  have hne2 : ¬ s.State = .EXPIRED := by rw [hs]; decide
  unfold Save
  rw [if_neg hne, if_neg hne2]
  cases err <;> simp only [hput, Save.finish, List.nil_append]

/-- What `Destroy` does when `Delete` returns. -/
theorem Destroy_of {δ : Type} (cookie : CookieOptions δ) (s : Session δ) (derr : Option Error)
    (hdel : cookie.Store.Delete s.Token = .ret derr) :
    Destroy cookie s
      = .ret ⟨s, (match derr with
            | none => [newCookie cookie [] (-1)]
            | some _ => []), [.Delete s.Token], derr⟩ := by
  unfold Destroy
  cases derr <;> simp only [hdel]

/-- C13, amended. With the package variable set by `Init` with a max-age of `m` seconds,
where `m` is at most 9223372036 either way so that its nanoseconds fit `int64`, `Save` of a
session in state NEW, at a time `nowNano`, whose `Put` of the updated session returns a token
`tv` and no error (leaving the session as it is), returns no error, leaves the session in
state VALID with expiry `uint32(now + m)` for `now` the Unix time of `nowNano`, and hands
exactly one cookie to `http.SetCookie`, whose value is `tv`. -/
theorem Save_new {δ : Type} (provider : Provider δ) (cookieName domain path : String) (m : Int)
    (secure : Bool) (nowNano : Int) (s : Session δ) (tv : List UInt8)
    (hm : -9223372036 ≤ m ∧ m ≤ 9223372036) (hs : s.State = .NEW)
    (hput : provider.Put { s with State := .VALID, Expiry := unixUint32 (unixOf nowNano + m) }
      = .ret ({ s with State := .VALID, Expiry := unixUint32 (unixOf nowNano + m) },
          (tv, none))) :
    ∃ w c, Save (Init provider cookieName domain path m secure) nowNano s = .ret w
      ∧ w.err = none
      ∧ w.session = { s with State := .VALID, Expiry := unixUint32 (unixOf nowNano + m) }
      ∧ w.session.State = .VALID
      ∧ w.session.Expiry = unixUint32 (unixOf nowNano + m)
      ∧ w.cookies = [c] ∧ c.Value = tv :=
  ⟨_, _, Save_of_new provider cookieName domain path m secure nowNano s tv hm hs hput, rfl,
    rfl, rfl, rfl, rfl, rfl⟩

/-- C14. `Save` of a session in state EXPIRED, at a time `nowNano`, sets the expiry to the
Unix time of `nowNano` as `uint32`, leaves the state EXPIRED, calls `Delete` on the token of
the session and then `Put` on the updated session, and nothing else; when that `Put` returns a
token `tv` and no error, exactly one cookie is handed to `http.SetCookie`, with value `tv`
and max-age -1; when it returns an error, `Save` returns it and writes no cookie. -/
theorem Save_expired {δ : Type} (cookie : CookieOptions δ) (nowNano : Int) (s : Session δ)
    (derr err : Option Error) (tv : List UInt8) (hs : s.State = .EXPIRED)
    (hdel : cookie.Store.Delete s.Token = .ret derr)
    (hput : cookie.Store.Put { s with Expiry := unixUint32 (unixOf nowNano) }
      = .ret ({ s with Expiry := unixUint32 (unixOf nowNano) }, (tv, err))) :
    ∃ w, Save cookie nowNano s = .ret w
      ∧ w.session = { s with Expiry := unixUint32 (unixOf nowNano) }
      ∧ w.session.Expiry = unixUint32 (unixOf nowNano)
      ∧ w.session.State = .EXPIRED
      ∧ w.calls = [.Delete s.Token, .Put { s with Expiry := unixUint32 (unixOf nowNano) }]
      ∧ w.err = err
      ∧ w.cookies = (match err with
          | none => [newCookie cookie tv (-1)]
          | some _ => [])
      ∧ (newCookie cookie tv (-1)).Value = tv ∧ (newCookie cookie tv (-1)).MaxAge < 0 :=
  ⟨_, Save_of_expired cookie nowNano s derr err tv hs hdel hput, rfl, rfl, hs, rfl, rfl, rfl,
    rfl, Int.negSucc_lt_zero 0⟩

/-- C20. `Save` of a session in state VALID, whose `Put` returns (leaving the session as it
is), leaves every field of the session unchanged, makes exactly one call into the provider,
that `Put` of the session, and no `Delete`; when `Put` returns a token `tv` and no error,
exactly one cookie is handed to `http.SetCookie`, with value `tv`, the token of the session
with its original expiry; the current time plays no part. -/
theorem Save_valid {δ : Type} (cookie : CookieOptions δ) (nowNano : Int) (s : Session δ)
    (err : Option Error) (tv : List UInt8) (hs : s.State = .VALID)
    (hput : cookie.Store.Put s = .ret (s, (tv, err))) :
    ∃ w, Save cookie nowNano s = .ret w
      ∧ w.session = s
      ∧ w.calls = [.Put s]
      ∧ w.err = err
      ∧ w.cookies = (match err with
          | none => [newCookie cookie tv 0]
          | some _ => [])
      ∧ (newCookie cookie tv 0).Value = tv :=
  ⟨_, Save_of_valid cookie nowNano s err tv hs hput, rfl, rfl, rfl, rfl, rfl⟩

/-- C15. `Destroy` makes one call into the provider, `Delete` of the token of the session,
and leaves the session unchanged. When `Delete` returns an error `Destroy` returns it and
writes no cookie; when it returns nil `Destroy` returns nil and hands exactly one cookie to
`http.SetCookie`, with an empty value and max-age -1. The `Delete` of the cookie store
returns nil for every token. -/
theorem Destroy_effect {δ : Type} (cookie : CookieOptions δ) (s : Session δ)
    (derr : Option Error) (cs : CookieStore δ) (token : List UInt8)
    (hdel : cookie.Store.Delete s.Token = .ret derr) :
    (∃ w, Destroy cookie s = .ret w
      ∧ w.session = s
      ∧ w.calls = [.Delete s.Token]
      ∧ w.err = derr
      ∧ w.cookies = (match derr with
          | none => [newCookie cookie [] (-1)]
          | some _ => []))
    ∧ (newCookie cookie [] (-1)).Value = [] ∧ (newCookie cookie [] (-1)).MaxAge = -1
    ∧ cs.toProvider.Delete token = .ret none :=
  ⟨⟨_, Destroy_of cookie s derr hdel, rfl, rfl, rfl, rfl⟩, rfl, rfl, rfl⟩

set_option maxRecDepth 1000000 in
/-- Witness of C13, in the setting of `TestCookieSession`: max-age 2 s, a new session of
"johndoe" saved at time 1000 s; the session becomes `savedSession`, with expiry 1002, and the
cookie carries its token. -/
theorem Save_new_witness :
    ∃ w c, Save (Init plainStore.toProvider "mysession" "localhost" "/" 2 false) 1000000000000
          ⟨.NEW, 0, [], bytesOf "johndoe", 0xFFFF, none⟩ = .ret w
      ∧ w.err = none
      ∧ w.session = savedSession
      ∧ w.session.State = .VALID
      ∧ w.session.Expiry = 1002
      ∧ w.cookies = [c] ∧ c.Value = savedToken :=
  Save_new plainStore.toProvider "mysession" "localhost" "/" 2 false 1000000000000
    ⟨.NEW, 0, [], bytesOf "johndoe", 0xFFFF, none⟩ savedToken (by decide) rfl
    (toProvider_Put plainStore savedSession _ (Put_plainStore_saved .VALID))

set_option maxRecDepth 1000000 in
/-- Counterexample to C13 as stated. `Init` is given a max-age of 10000000000 seconds, whose
nanoseconds exceed `int64`: the product wraps around to -8446744073709551616. A new session
of "johndoe" is saved at time 1000 s; `Put` succeeds and `Save` returns no error, and the
expiry is 143191518, where `uint32(now + m)` is 1410066408. -/
theorem Save_new_counterexample :
    (Init plainStore.toProvider "mysession" "localhost" "/" 10000000000 false).MaxAge
      = -8446744073709551616
    ∧ Save (Init plainStore.toProvider "mysession" "localhost" "/" 10000000000 false)
          1000000000000 ⟨.NEW, 0, [], bytesOf "johndoe", 0xFFFF, none⟩
        = .ret ⟨⟨.VALID, 143191518, [], bytesOf "johndoe", 0xFFFF, none⟩,
            [⟨"mysession",
              EncodeToString
                (plainStore.fillBuff ⟨.VALID, 143191518, [], bytesOf "johndoe", 0xFFFF, none⟩ []),
              "/", "localhost", 0, false, true⟩],
            [.Put ⟨.VALID, 143191518, [], bytesOf "johndoe", 0xFFFF, none⟩,
             .Put ⟨.VALID, 143191518, [], bytesOf "johndoe", 0xFFFF, none⟩],
            none⟩
    ∧ unixUint32 (unixOf 1000000000000 + 10000000000) = 1410066408
    ∧ (143191518 : UInt32) ≠ 1410066408 :=
  ⟨by decide,
    Save_of_new_cookie (Init plainStore.toProvider "mysession" "localhost" "/" 10000000000 false)
      1000000000000 ⟨.NEW, 0, [], bytesOf "johndoe", 0xFFFF, none⟩ _ rfl
      (toProvider_Put plainStore ⟨.VALID, 143191518, [], bytesOf "johndoe", 0xFFFF, none⟩ _
        (Put_of_serData plainStore ⟨.VALID, 143191518, [], bytesOf "johndoe", 0xFFFF, none⟩ []
          (by decide) rfl)),
    by decide, by decide⟩

set_option maxRecDepth 1000000 in
/-- Witness of C14: the session of "johndoe", expired, saved just before time 1003 s; the
expiry becomes 1002, `Delete` is called on the empty token, then `Put`, and the cookie
carries the token with max-age -1. -/
theorem Save_expired_witness :
    ∃ w, Save testCookie 1002999999999 ⟨.EXPIRED, 5, [], bytesOf "johndoe", 0xFFFF, none⟩ = .ret w
      ∧ w.session = ⟨.EXPIRED, 1002, [], bytesOf "johndoe", 0xFFFF, none⟩
      ∧ w.session.Expiry = 1002
      ∧ w.session.State = .EXPIRED
      ∧ w.calls = [.Delete [], .Put ⟨.EXPIRED, 1002, [], bytesOf "johndoe", 0xFFFF, none⟩]
      ∧ w.err = none
      ∧ w.cookies = [⟨"mysession", savedToken, "/", "localhost", -1, false, true⟩]
      ∧ (newCookie testCookie savedToken (-1)).Value = savedToken
      ∧ (newCookie testCookie savedToken (-1)).MaxAge < 0 :=
  Save_expired testCookie 1002999999999 ⟨.EXPIRED, 5, [], bytesOf "johndoe", 0xFFFF, none⟩ none
    none savedToken rfl rfl
    (toProvider_Put plainStore ⟨.EXPIRED, 1002, [], bytesOf "johndoe", 0xFFFF, none⟩ _
      (Put_plainStore_saved .EXPIRED))

set_option maxRecDepth 1000000 in
/-- Witness of C20: `savedSession`, valid until 1002, saved again at time 1001 s; the
session is unchanged, `Put` is the only call and the cookie carries the same token as
before. -/
theorem Save_valid_witness :
    ∃ w, Save testCookie 1001000000000 savedSession = .ret w
      ∧ w.session = savedSession
      ∧ w.calls = [.Put savedSession]
      ∧ w.err = none
      ∧ w.cookies = [⟨"mysession", savedToken, "/", "localhost", 0, false, true⟩]
      ∧ (newCookie testCookie savedToken 0).Value = savedToken :=
  Save_valid testCookie 1001000000000 savedSession none savedToken rfl
    (toProvider_Put plainStore savedSession _ (Put_plainStore_saved .VALID))

/-- Witness of C15: `Destroy` of `savedSession` on the store of the test without cipher key. -/
theorem Destroy_effect_witness :
    (∃ w, Destroy testCookie savedSession = .ret w
      ∧ w.session = savedSession
      ∧ w.calls = [.Delete []]
      ∧ w.err = none
      ∧ w.cookies = [⟨"mysession", [], "/", "localhost", -1, false, true⟩])
    ∧ (newCookie testCookie [] (-1)).Value = [] ∧ (newCookie testCookie [] (-1)).MaxAge = -1
    ∧ plainStore.toProvider.Delete savedToken = .ret none :=
  Destroy_effect testCookie savedSession none plainStore savedToken rfl

/-! ## Attributes of the cookies written -/

theorem Save.finish_cookies {δ : Type} (cookie : CookieOptions δ) (maxAge : Int) (s : Session δ)
    (calls : List (ProviderCall δ)) (w : Written δ) (c : Cookie)
    (hw : Save.finish cookie maxAge s calls = .ret w) (hc : c ∈ w.cookies) :
    c = newCookie cookie c.Value maxAge := by
  unfold Save.finish at hw
  split at hw
  · cases hw
  · cases hw
    cases hc
  · cases hw
    simp only [List.mem_singleton] at hc
    rw [hc]
    rfl

theorem Save_cookies {δ : Type} (cookie : CookieOptions δ) (nowNano : Int) (s : Session δ)
    (w : Written δ) (c : Cookie) (hw : Save cookie nowNano s = .ret w) (hc : c ∈ w.cookies) :
    c = newCookie cookie c.Value (if s.State = .EXPIRED then -1 else 0) := by
  unfold Save at hw
  by_cases h1 : s.State = .NEW
  · rw [if_pos h1] at hw
    rw [if_neg (by rw [h1]; decide)]
    simp only [] at hw
    split at hw
    · cases hw
    · exact Save.finish_cookies _ _ _ _ w c hw hc
  · rw [if_neg h1] at hw
    by_cases h2 : s.State = .EXPIRED
    · rw [if_pos h2] at hw
      rw [if_pos h2]
      simp only [] at hw
      split at hw
      · cases hw
      · exact Save.finish_cookies _ _ _ _ w c hw hc
    · rw [if_neg h2] at hw
      rw [if_neg h2]
      exact Save.finish_cookies _ _ _ _ w c hw hc

theorem Destroy_cookies {δ : Type} (cookie : CookieOptions δ) (s : Session δ)
    (w : Written δ) (c : Cookie) (hw : Destroy cookie s = .ret w) (hc : c ∈ w.cookies) :
    c = newCookie cookie [] (-1) := by
  unfold Destroy at hw
  split at hw
  · cases hw
  · cases hw
    cases hc
  · cases hw
    simp only [List.mem_singleton] at hc
    exact hc

/-- C16. With the package variable set by `Init`, every cookie that `Save` or `Destroy` hands
to `http.SetCookie` has `HttpOnly` set and the name, domain, path and secure flag given to
`Init`. Its max-age is 0 when `Save` is entered in state NEW or VALID, and -1 when `Save` is
entered in state EXPIRED or when the cookie is written by `Destroy`. -/
theorem cookie_attributes {δ : Type} (provider : Provider δ) (cookieName domain path : String)
    (maxAge : Int) (secure : Bool) (nowNano : Int) (s : Session δ) (c : Cookie) :
    (∀ w, Save (Init provider cookieName domain path maxAge secure) nowNano s = .ret w →
      c ∈ w.cookies →
        c.HttpOnly = true ∧ c.Name = cookieName ∧ c.Domain = domain ∧ c.Path = path
        ∧ c.Secure = secure
        ∧ (s.State = .NEW ∨ s.State = .VALID → c.MaxAge = 0)
        ∧ (s.State = .EXPIRED → c.MaxAge = -1))
    ∧ (∀ w, Destroy (Init provider cookieName domain path maxAge secure) s = .ret w →
      c ∈ w.cookies →
        c.HttpOnly = true ∧ c.Name = cookieName ∧ c.Domain = domain ∧ c.Path = path
        ∧ c.Secure = secure ∧ c.MaxAge = -1) := by
  constructor
  · intro w hw hc
    have h := Save_cookies _ nowNano s w c hw hc
    rw [h]
    refine ⟨rfl, rfl, rfl, rfl, rfl, ?_, ?_⟩
    · intro hs
      have hne : ¬ s.State = .EXPIRED := by
        rcases hs with hs | hs <;> rw [hs] <;> decide
      simp only [newCookie, if_neg hne]
    · intro hs
      simp only [newCookie, if_pos hs]
  · intro w hw hc
    have h := Destroy_cookies _ s w c hw hc
    rw [h]
    exact ⟨rfl, rfl, rfl, rfl, rfl, rfl⟩

set_option maxRecDepth 1000000 in
/-- Witness of C16: the cookie of the new session of "johndoe" saved at time 1000 s, and the
cookie of `Destroy` of `savedSession`. -/
theorem cookie_attributes_witness :
    ((savedCookie.HttpOnly = true ∧ savedCookie.Name = "mysession"
        ∧ savedCookie.Domain = "localhost" ∧ savedCookie.Path = "/"
        ∧ savedCookie.Secure = false
        ∧ (SessionState.NEW = .NEW ∨ SessionState.NEW = .VALID → savedCookie.MaxAge = 0)
        ∧ (SessionState.NEW = .EXPIRED → savedCookie.MaxAge = -1))
      ∧ savedCookie.MaxAge = 0)
    ∧ clearedCookie.HttpOnly = true ∧ clearedCookie.Name = "mysession"
        ∧ clearedCookie.Domain = "localhost" ∧ clearedCookie.Path = "/"
        ∧ clearedCookie.Secure = false ∧ clearedCookie.MaxAge = -1 :=
  ⟨⟨(cookie_attributes plainStore.toProvider "mysession" "localhost" "/" 2 false 1000000000000
      ⟨.NEW, 0, [], bytesOf "johndoe", 0xFFFF, none⟩ savedCookie).1 _
      (Save_of_new plainStore.toProvider "mysession" "localhost" "/" 2 false 1000000000000
        ⟨.NEW, 0, [], bytesOf "johndoe", 0xFFFF, none⟩ savedToken (by decide) rfl
        (toProvider_Put plainStore savedSession _ (Put_plainStore_saved .VALID)))
      (List.mem_singleton_self _), rfl⟩,
   (cookie_attributes plainStore.toProvider "mysession" "localhost" "/" 2 false 0
      savedSession clearedCookie).2 _
      (Destroy_of (Init plainStore.toProvider "mysession" "localhost" "/" 2 false) savedSession
        none rfl)
      (List.mem_singleton_self _)⟩

/-! ## A cipher key of length zero -/

/-- C17, as the code behaves. On a store `NewCookieStore` returns for a cipher key that is
empty and not nil, `Put` and `Get` test the key against nil and so go on to `aes.NewCipher`:
`Put` returns an empty token and the key-size error for every session it would otherwise
encode, and `Get` returns the key-size error for every token that decodes to at least 33
bytes. -/
theorem empty_cipher_key {δ : Type} (hashKey : List UInt8) (enc : Option (SessionDataCoder δ))
    (alloc : Option (Unit → δ)) (cs : CookieStore δ)
    (hcs : NewCookieStore hashKey (some []) enc alloc = (some cs, none)) :
    (∀ s ser, s.LoginName.length ≤ 255 → cs.serData s = .ret (.ok ser) →
      cs.Put (some s) = .ret ([], some (.keySize 0)))
    ∧ (∀ cookieVal byts, DecodeString cookieVal = .ok byts → 33 ≤ byts.length →
      cs.Get cookieVal = .ret (none, some (.keySize 0))) := by
  have hf := NewCookieStore_fields hcs
  have hk : cs.encKey = some [] := by rw [hf]
  have hh : cs.hashSize = 20 := by rw [hf]; rfl
  constructor
  · intro s ser hL hser
    rw [Put_of_serData cs s ser hL hser, hk]
    rfl
  · intro cookieVal byts hdec hlen
    unfold CookieStore.Get
    simp only [hdec, hk]
    rw [if_neg (by omega)]
    rfl

set_option maxRecDepth 1000000 in
/-- C17 at a failing input: `NewCookieStore([]byte("1234"), []byte{}, nil, nil)` returns a
store; on it `Put` of `savedSession` fails with the key-size error, and so does `Get` of the
token the store with a nil cipher key returns for that session. -/
theorem empty_cipher_key_witness :
    NewCookieStore (bytesOf "1234") (some []) none none = (some emptyKeyStore, none)
    ∧ emptyKeyStore.Put (some savedSession) = .ret ([], some (.keySize 0))
    ∧ emptyKeyStore.Get savedToken = .ret (none, some (.keySize 0))
    ∧ NewCookieStore (bytesOf "1234") none none none = (some plainStore, none)
    ∧ plainStore.Put (some savedSession) = .ret (savedToken, none) :=
  ⟨rfl,
    (empty_cipher_key (bytesOf "1234") none none emptyKeyStore rfl).1 savedSession []
      (by decide) rfl,
    (empty_cipher_key (bytesOf "1234") none none emptyKeyStore rfl).2 savedToken
      [0, 0, 3, 234, 0, 0, 0, 0, 0, 0, 255, 255, 7, 106, 111, 104, 110, 100, 111, 101,
        142, 23, 111, 119, 130, 86, 15, 81, 247, 168, 228, 173, 107, 121, 247, 111, 218, 79, 134,
        82]
      (by decide) (by decide),
    rfl, Put_plainStore_saved .VALID⟩

/-! ## Totality of `Put` and `Get` -/

/-- C19, as the code behaves. On a store `NewCookieStore` returns for a nil coder and a nil
factory, `Put` of a session whose `Data` is not nil and whose login name has at most 255
bytes panics: `Encode` is called through the nil coder. -/
theorem Put_nil_coder {δ : Type} (hashKey : List UInt8) (encKey : Option (List UInt8))
    (cs : CookieStore δ) (hcs : NewCookieStore hashKey encKey none none = (some cs, none))
    (s : Session δ) (d : δ) (hd : s.Data = some d) (hL : s.LoginName.length ≤ 255) :
    cs.Put (some s) = .panic := by
  have hf := NewCookieStore_fields hcs
  have he : cs.dataEnc = none := by rw [hf]
  unfold CookieStore.Put
  simp only []
  rw [if_neg (by omega)]
  simp only [CookieStore.serData, hd, he]

/-- C19 at a failing input: the store `NewCookieStore([]byte("1234"), nil, nil, nil)` and a
session that only carries a `Data`. -/
theorem Put_nil_coder_witness :
    NewCookieStore (bytesOf "1234") none none none = (some plainStore, none)
    ∧ plainStore.Put (some ⟨.NEW, 0, [], [], 0, some ()⟩) = .panic :=
  ⟨rfl, Put_nil_coder (bytesOf "1234") none plainStore rfl ⟨.NEW, 0, [], [], 0, some ()⟩ () rfl
    (by decide)⟩

set_option maxRecDepth 1000000 in
/-- C18, at three failing inputs on the store `NewCookieStore([]byte("1234"), nil, nil, nil)`,
each a token whose record carries a matching digest. `Get` panics on the token `Put` returns
for a login name of 250 bytes, where `13+loginLen` wraps around in `uint8`; on the token a
store with the same digest key and a coder returns for a session with one byte of payload,
where the nil factory is called; and on the token of the 13-byte record whose length byte is
5, where the login name would end after the end of the record. -/
theorem Get_not_total :
    NewCookieStore (bytesOf "1234") none none none = (some plainStore, none)
    ∧ plainStore.Put (some ⟨.NEW, 0, [], List.replicate 250 97, 0, none⟩)
        = .ret (EncodeToString (plainStore.fillBuff ⟨.NEW, 0, [], List.replicate 250 97, 0, none⟩
            []), none)
    ∧ plainStore.Get
          (EncodeToString (plainStore.fillBuff ⟨.NEW, 0, [], List.replicate 250 97, 0, none⟩ []))
        = .panic
    ∧ rawStore.Put (some ⟨.NEW, 0, [], [], 0, some [1]⟩)
        = .ret (EncodeToString (rawStore.fillBuff ⟨.NEW, 0, [], [], 0, some [1]⟩ [1]), none)
    ∧ plainStore.Get (EncodeToString (rawStore.fillBuff ⟨.NEW, 0, [], [], 0, some [1]⟩ [1]))
        = .panic
    ∧ plainStore.Get (EncodeToString ([0, 0, 0, 0, 0, 0, 0, 0, 0, 0, 0, 0, 5]
          ++ hmacSum sha1New (bytesOf "1234") [0, 0, 0, 0, 0, 0, 0, 0, 0, 0, 0, 0, 5]))
        = .panic := by
  have hH : ∀ m, (hmacSum plainStore.hashAlgo plainStore.hashKey m).length
      = plainStore.hashSize := fun m => hmacSum_sha1_length _ m
  have hp : plainStore.Put (some ⟨.NEW, 0, [], List.replicate 250 97, 0, none⟩)
      = .ret (EncodeToString (plainStore.fillBuff ⟨.NEW, 0, [], List.replicate 250 97, 0, none⟩
          []), none) :=
    Put_of_serData plainStore ⟨.NEW, 0, [], List.replicate 250 97, 0, none⟩ [] (by decide) rfl
  have hp2 : rawStore.Put (some ⟨.NEW, 0, [], [], 0, some [1]⟩)
      = .ret (EncodeToString (rawStore.fillBuff ⟨.NEW, 0, [], [], 0, some [1]⟩ [1]), none) :=
    Put_of_serData rawStore ⟨.NEW, 0, [], [], 0, some [1]⟩ [1] (by decide) rfl
  refine ⟨rfl, hp, ?_, hp2, ?_, ?_⟩
  · obtain ⟨t, hput, hget⟩ := Get_Put_panic plainStore
      ⟨.NEW, 0, [], List.replicate 250 97, 0, none⟩ [] hH (Or.inl rfl) (by decide) rfl
    rw [hp] at hput
    simp only [Outcome.ret.injEq, Prod.mk.injEq, and_true] at hput
    rw [← hput] at hget
    exact hget
  · rw [fillBuff_eq_record rawStore _ _ (fun m => hmacSum_sha1_length _ m)]
    have hg := Get_of_record plainStore
      (Uint32ToBytes 0 ++ Uint64ToBytes 0 ++ [UInt8.ofNat ([] : List UInt8).length] ++ [] ++ [1])
      _ hH (by decide) rfl
    have he := extract_record plainStore 0 0 [] [1]
      (hmacSum plainStore.hashAlgo plainStore.hashKey
        (Uint32ToBytes 0 ++ Uint64ToBytes 0 ++ [UInt8.ofNat ([] : List UInt8).length] ++ []
          ++ [1]))
      (by decide) (hH _)
    rw [he] at hg
    exact hg
  · have hg := Get_of_record plainStore [0, 0, 0, 0, 0, 0, 0, 0, 0, 0, 0, 0, 5] _ hH (by decide)
      rfl
    have hl := hH [0, 0, 0, 0, 0, 0, 0, 0, 0, 0, 0, 0, 5]
    refine hg.trans ?_
    generalize hmacSum plainStore.hashAlgo plainStore.hashKey
      [0, 0, 0, 0, 0, 0, 0, 0, 0, 0, 0, 0, 5] = mac at hl
    have hs2 : slice ([0, 0, 0, 0, 0, 0, 0, 0, 0, 0, 0, 0, 5] ++ mac) 18
        (([0, 0, 0, 0, 0, 0, 0, 0, 0, 0, 0, 0, 5] ++ mac).length - plainStore.hashSize)
        = none := by
      unfold slice
      rw [if_neg]
      rw [List.length_append, hl]
      decide
    have h18 : ((13 : UInt8) + ([0, 0, 0, 0, 0, 0, 0, 0, 0, 0, 0, 0, 5] ++ mac).getD 12 0).toNat
        = 18 := rfl
    unfold CookieStore.extract
    simp only [h18, hs2]
    split <;> rfl

end Kayo
